import Mathlib

set_option maxRecDepth 100000

/-!
Verification development for the traefik-geoblock repository.

The Go sources are shallowly embedded: byte slices become lists of
natural numbers, pointers to radix nodes become an inductive tree with an
explicit nil constructor, fallible operations return Except, and the
opaque ip2location database is a lookup function passed as a parameter.
Names follow the Go sources where Lean allows it.
-/

namespace Geoblock

/-! ## String helpers

Small structural reimplementations of the Go strings functions used by
the embedded code (restricted to the ASCII fragment those call sites
feed them), so that every definition evaluates by kernel reduction. -/

/-- Go strings.HasPrefix on character lists. -/
def goHasPfx : List Char → List Char → Bool
  | [], _ => true
  | _ :: _, [] => false
  | p :: ps, c :: cs => p == c && goHasPfx ps cs

/-- Go strings.ToLower (ASCII fragment). -/
def asciiToLower (s : List Char) : List Char :=
  s.map fun c => if 'A' ≤ c ∧ c ≤ 'Z' then Char.ofNat (c.toNat + 32) else c

/-- Go strings.Split with a comma separator. -/
def splitCommaAux : List Char → List Char → List String
  | [], acc => [⟨acc.reverse⟩]
  | c :: cs, acc =>
      if c = ',' then (⟨acc.reverse⟩ : String) :: splitCommaAux cs []
      else splitCommaAux cs (c :: acc)

/-- Go strings.Split(s, comma). -/
def goSplitComma (s : String) : List String :=
  splitCommaAux s.toList []

/-- Decimal digits of a positive number, most significant first. -/
def decimalDigitsAux : Nat → Nat → List Char
  | 0, _ => []
  | fuel + 1, n =>
      if n = 0 then []
      else decimalDigitsAux fuel (n / 10) ++ [Char.ofNat (48 + n % 10)]

/-- Go strconv.FormatUint(n, 10) for numbers below 2^53. -/
def natDecimalString (n : Nat) : String :=
  if n = 0 then "0" else ⟨decimalDigitsAux 16 n⟩

/-- Structural decidable equality for Except results. -/
instance {α β : Type} [DecidableEq α] [DecidableEq β] : DecidableEq (Except α β)
  | .error a, .error b =>
      if h : a = b then .isTrue (by rw [h]) else .isFalse (by intro hh; cases hh; exact h rfl)
  | .error _, .ok _ => .isFalse (by intro h; cases h)
  | .ok _, .error _ => .isFalse (by intro h; cases h)
  | .ok a, .ok b =>
      if h : a = b then .isTrue (by rw [h]) else .isFalse (by intro hh; cases hh; exact h rfl)

/-! ## Go net primitives (net.IP is a byte slice) -/

/-- Go net.IP: a byte slice, modelled as a list of byte values. -/
abbrev GoIP := List Nat

/-- Go net package: the 12-byte v4-in-v6 marker that begins every
IPv4-mapped IPv6 address (bytes 0..9 zero, then 0xff 0xff). -/
def v4InV6Pfx : List Nat := [0, 0, 0, 0, 0, 0, 0, 0, 0, 0, 255, 255]

/-- Go net.IP.To4: a 4-byte address is returned as is; a 16-byte
IPv4-mapped address is reduced to its last 4 bytes; anything else is nil. -/
def to4 (ip : GoIP) : Option GoIP :=
  if ip.length = 4 then some ip
  else if ip.length = 16 && ip.take 12 == v4InV6Pfx then some (ip.drop 12)
  else none

/-- Go net.IP.To16: a 4-byte address is widened to the IPv4-mapped 16-byte
form; a 16-byte address is returned as is (other lengths do not occur in
the embedded code paths). -/
def to16 (ip : GoIP) : GoIP :=
  if ip.length = 4 then v4InV6Pfx ++ ip else ip

/-- Go net.IP.IsPrivate: RFC 1918 ranges for IPv4 and fc00::/7 for IPv6.
Loopback addresses are NOT private under this predicate. -/
def isPrivate (ip : GoIP) : Bool :=
  match to4 ip with
  | some ip4 =>
      ip4.getD 0 0 == 10 ||
      (ip4.getD 0 0 == 172 && (ip4.getD 1 0) &&& 0xf0 == 16) ||
      (ip4.getD 0 0 == 192 && ip4.getD 1 0 == 168)
  | none => ip.length == 16 && (ip.getD 0 0) &&& 0xfe == 0xfc

/-- Go net.CIDRMask inner loop: builds mask bytes for the given number of
leading one bits over the given number of remaining bytes. -/
def cidrMaskBytes : Nat → Nat → List Nat
  | 0, _ => []
  | l + 1, n =>
      if n ≥ 8 then 255 :: cidrMaskBytes l (n - 8)
      else (255 ^^^ (255 >>> n)) :: cidrMaskBytes l 0

/-- Go net.CIDRMask: a mask of ones leading one bits out of bits total
(bits is 32 or 128; other values yield nil, modelled as the empty list). -/
def cidrMask (ones bits : Nat) : List Nat :=
  if bits ≠ 32 ∧ bits ≠ 128 then []
  else if ones > bits then []
  else cidrMaskBytes (bits / 8) ones

/-- Go net simpleMaskLength inner check: after the first non-0xff byte all
remaining bytes must be zero; counts the leading one bits of one byte. -/
def byteOnes : Nat → Nat → Nat
  | _, 0 => 0
  | v, fuel + 1 => if v &&& 0x80 ≠ 0 then 1 + byteOnes ((v <<< 1) &&& 0xff) fuel else 0

/-- Whether the byte has only leading ones (so the mask is a CIDR mask). -/
def byteContiguous (v : Nat) : Bool :=
  (v <<< byteOnes v 8) &&& 0xff == 0

/-- Go net simpleMaskLength: number of leading one bits of a CIDR mask,
or 0 for a non-contiguous mask (Go returns -1; Mask.Size then reports 0,
which is what the callers in this repository observe). -/
def maskSize (mask : List Nat) : Nat :=
  go mask 0
where
  go : List Nat → Nat → Nat
  | [], n => n
  | v :: rest, n =>
      if v == 255 then go rest (n + 8)
      else if byteContiguous v && rest.all (· == 0) then n + byteOnes v 8
      else 0

/-- Go net networkNumberAndMask: normalizes the network address to 4 bytes
when it is IPv4, and trims a 16-byte mask to its last 4 bytes in that
case; yields none when the shapes are inconsistent. -/
def networkNumberAndMaskOf (nIP : GoIP) (nMask : List Nat) : Option (GoIP × List Nat) :=
  let ip := match to4 nIP with
    | some ip4 => some ip4
    | none => if nIP.length = 16 then some nIP else none
  match ip with
  | none => none
  | some ip =>
      if nMask.length = 4 then
        if ip.length ≠ 4 then none else some (ip, nMask)
      else if nMask.length = 16 then
        if ip.length = 4 then some (ip, nMask.drop 12) else some (ip, nMask)
      else none

/-- Go net.IPNet: a network address plus mask, both byte slices. -/
structure GoIPNet where
  ip : GoIP
  mask : List Nat
deriving DecidableEq, Repr

/-- Byte-wise masked comparison loop of Go net.IPNet.Contains. -/
def maskedEq : GoIP → GoIP → List Nat → Bool
  | [], [], _ => true
  | a :: as_, b :: bs, m :: ms => (a &&& m == b &&& m) && maskedEq as_ bs ms
  | _, _, _ => false

/-- Go net.IPNet.Contains: normalize both sides to 4 bytes when IPv4,
require equal lengths, then compare all bytes under the mask. -/
def netContains (n : GoIPNet) (ip : GoIP) : Bool :=
  match networkNumberAndMaskOf n.ip n.mask with
  | none => false
  | some (nn, m) =>
      let ip := match to4 ip with
        | some x => x
        | none => ip
      if ip.length ≠ nn.length then false
      else maskedEq nn ip m

/-- Go net.IP.Mask: apply a mask byte-wise, reducing a 16-byte
IPv4-mapped address to 4 bytes when the mask has 4 bytes. -/
def ipMask (ip : GoIP) (mask : List Nat) : GoIP :=
  let ip :=
    if mask.length = 4 && ip.length = 16 && ip.take 12 == v4InV6Pfx then ip.drop 12
    else ip
  if ip.length ≠ mask.length then []
  else (ip.zip mask).map (fun p => p.1 &&& p.2)

/-! ## Go address parsing (net.ParseIP / net.ParseCIDR) -/

/-- Bound used by the Go digit parsers (net dtoi / xtoi). -/
def bigBound : Nat := 0xFFFFFF

/-- Go net dtoi: parse a decimal prefix, returning the value, the number
of characters consumed, and an ok flag. -/
def dtoi (s : List Char) : Nat × Nat × Bool :=
  go s 0 0
where
  go : List Char → Nat → Nat → Nat × Nat × Bool
  | [], n, i => if i = 0 then (0, 0, false) else (n, i, true)
  | c :: cs, n, i =>
      if '0' ≤ c ∧ c ≤ '9' then
        let n := n * 10 + (c.toNat - '0'.toNat)
        if n ≥ bigBound then (bigBound, i, false) else go cs n (i + 1)
      else if i = 0 then (0, 0, false) else (n, i, true)

/-- Hex digit value of a character, or none for a non-hex character. -/
def hexVal (c : Char) : Option Nat :=
  if '0' ≤ c ∧ c ≤ '9' then some (c.toNat - '0'.toNat)
  else if 'a' ≤ c ∧ c ≤ 'f' then some (c.toNat - 'a'.toNat + 10)
  else if 'A' ≤ c ∧ c ≤ 'F' then some (c.toNat - 'A'.toNat + 10)
  else none

/-- Go net xtoi: parse a hexadecimal prefix, returning the value, the
number of characters consumed, and an ok flag. -/
def xtoi (s : List Char) : Nat × Nat × Bool :=
  go s 0 0
where
  go : List Char → Nat → Nat → Nat × Nat × Bool
  | [], n, i => if i = 0 then (0, i, false) else (n, i, true)
  | c :: cs, n, i =>
      match hexVal c with
      | some v =>
          let n := n * 16 + v
          if n ≥ bigBound then (0, i, false) else go cs n (i + 1)
      | none => if i = 0 then (0, i, false) else (n, i, true)

/-- One dotted-decimal field of Go net parseIPv4: dtoi with the 0..255
range check and the rejection of leading zeros. -/
def parseOctet (s : List Char) : Option (Nat × List Char) :=
  let (n, c, ok) := dtoi s
  if !ok || n > 0xFF then none
  else if c > 1 && s.headD ' ' == '0' then none
  else some (n, s.drop c)

/-- Literal dot separating two dotted-decimal fields. -/
def expectDot : List Char → Option (List Char)
  | '.' :: rest => some rest
  | _ => none

/-- Go net parseIPv4 (loop unrolled over the four fields): yields the
16-byte IPv4-mapped form, as Go IPv4() does. -/
def parseIPv4 (s : List Char) : Option GoIP := do
  let (a, s) ← parseOctet s
  let s ← expectDot s
  let (b, s) ← parseOctet s
  let s ← expectDot s
  let (c, s) ← parseOctet s
  let s ← expectDot s
  let (d, s) ← parseOctet s
  if s ≠ [] then none else some (v4InV6Pfx ++ [a, b, c, d])

/-- Final step of Go net parseIPv6: when fewer than 16 bytes were parsed
an ellipsis must be present and the tail groups are shifted to the end,
zero-filling the middle; when all 16 bytes were parsed an ellipsis is an
error. The byte expansion is expressed as take/replicate/drop. -/
def v6Finish (acc : List Nat) (i : Nat) (ell : Option Nat) : Option GoIP :=
  if i < 16 then
    match ell with
    | none => none
    | some e => some (acc.take e ++ List.replicate (16 - i) 0 ++ acc.drop e)
  else
    match ell with
    | some _ => none
    | none => some acc

/-- Main loop of Go net parseIPv6. The fuel counts loop iterations; the
Go loop runs while i is below 16 and each iteration adds at least two
bytes, so 8 iterations always suffice. -/
def v6Loop : Nat → List Char → Nat → List Nat → Option Nat → Option GoIP
  | 0, s, i, acc, ell => if s = [] then v6Finish acc i ell else none
  | fuel + 1, s, i, acc, ell =>
      if i ≥ 16 then (if s = [] then v6Finish acc i ell else none)
      else
        let (n, c, ok) := xtoi s
        if !ok || n > 0xFFFF then none
        else if c < s.length && s.getD c ' ' == '.' then
          if ell = none ∧ i ≠ 12 then none
          else if i + 4 > 16 then none
          else
            match parseIPv4 s with
            | none => none
            | some ip4 => v6Finish (acc ++ ip4.drop 12) (i + 4) ell
        else
          let acc := acc ++ [n / 256, n % 256]
          let i := i + 2
          let s := s.drop c
          if s = [] then v6Finish acc i ell
          else if s.headD ' ' ≠ ':' ∨ s.length = 1 then none
          else
            let s := s.tail
            if s.headD ' ' == ':' then
              if ell.isSome then none
              else
                let s := s.tail
                if s = [] then v6Finish acc i (some i)
                else v6Loop fuel s i acc (some i)
            else v6Loop fuel s i acc ell

/-- Go net parseIPv6: handles a leading double colon, then runs the group
loop. A zone suffix never parses here, matching ParseIP which rejects
zoned addresses. -/
def parseIPv6 (s : List Char) : Option GoIP :=
  match s with
  | ':' :: ':' :: rest =>
      if rest = [] then some (List.replicate 16 0)
      else v6Loop 8 rest 0 [] (some 0)
  | _ => v6Loop 8 s 0 [] none

/-- Dispatch scan of Go net.ParseIP: the first dot selects the IPv4
parser, the first colon the IPv6 parser. -/
def parseIPScan (orig : List Char) : List Char → Option GoIP
  | [] => none
  | c :: cs =>
      if c = '.' then parseIPv4 orig
      else if c = ':' then parseIPv6 orig
      else parseIPScan orig cs

/-- Go net.ParseIP. -/
def parseIP (s : String) : Option GoIP :=
  parseIPScan s.toList s.toList

/-- Index of the first slash of a CIDR string, splitting it into the
address part and the mask part (Go byteIndex). -/
def splitSlash : List Char → Option (List Char × List Char)
  | [] => none
  | c :: cs =>
      if c = '/' then some ([], cs)
      else match splitSlash cs with
        | none => none
        | some (a, m) => some (c :: a, m)

/-- Go net.ParseCIDR: parse the address as IPv4 then IPv6, parse the
decimal prefix length against the address family's bit width, and return
the masked network. Only the network (the IPNet) is modelled, since the
repository discards the first return value. -/
def parseCIDR (s : String) : Option GoIPNet :=
  match splitSlash s.toList with
  | none => none
  | some (addr, mask) =>
      let (ip, iplen) : Option GoIP × Nat :=
        match parseIPv4 addr with
        | some ip => (some ip, 4)
        | none => (parseIPv6 addr, 16)
      match ip with
      | none => none
      | some ip =>
          let (n, i, ok) := dtoi mask
          if !ok || i ≠ mask.length || n > 8 * iplen then none
          else
            let m := cidrMask n (8 * iplen)
            some ⟨ipMask ip m, m⟩

/-! ## The IP radix tree (iplookup source: radixNode / ipRadixTree) -/

/-- Go radixNode. A nil child pointer is modelled by the extra
constructor leaf; an allocated empty node is node false 0 leaf leaf. -/
inductive RTree where
  | leaf : RTree
  | node (isEndpoint : Bool) (prefixLen : Nat) (left right : RTree) : RTree
deriving DecidableEq, Repr

/-- Go newIPRadixTree: the root always exists as an allocated empty node. -/
def emptyRoot : RTree := .node false 0 .leaf .leaf

/-- Bit extraction of insert/contains: bit number pos of the byte array,
most significant bit of each byte first. -/
def goBit (bytes : List Nat) (pos : Nat) : Nat :=
  ((bytes.getD (pos / 8) 0) >>> (7 - pos % 8)) &&& 1

/-- Loop of ipRadixTree.insert: walk bit positions pos, pos+1, ... for
prefixLen steps, creating children as needed (descending into leaf models
the allocation of an empty child node), then mark the final node as an
endpoint carrying prefixLen. -/
def insertLoop (bytes : List Nat) (prefixLen : Nat) : RTree → Nat → Nat → RTree
  | t, _, 0 =>
      match t with
      | .leaf => .node true prefixLen .leaf .leaf
      | .node _ _ l r => .node true prefixLen l r
  | t, pos, k + 1 =>
      let bit := goBit bytes pos
      match t with
      | .leaf =>
          if bit = 0 then .node false 0 (insertLoop bytes prefixLen .leaf (pos + 1) k) .leaf
          else .node false 0 .leaf (insertLoop bytes prefixLen .leaf (pos + 1) k)
      | .node e p l r =>
          if bit = 0 then .node e p (insertLoop bytes prefixLen l (pos + 1) k) r
          else .node e p l (insertLoop bytes prefixLen r (pos + 1) k)

/-- Go ipRadixTree.insert: IPv4 networks are widened to the 16-byte
mapped form and written starting at bit 96; IPv6 networks start at bit 0.
The walk length is the prefix length from Mask.Size. -/
def treeInsert (t : RTree) (cidr : GoIPNet) : RTree :=
  let prefixLen := maskSize cidr.mask
  match to4 cidr.ip with
  | some ip4 => insertLoop (to16 ip4) prefixLen t 96 prefixLen
  | none => insertLoop cidr.ip prefixLen t 0 prefixLen

/-- Loop of ipRadixTree.contains: walk up to maxPrefixLen bits while the
current node exists, remembering the prefix length of the last endpoint
passed; the node reached after the last step is also checked. -/
def containsLoop (bytes : List Nat) : RTree → Nat → Nat → Bool × Nat → Bool × Nat
  | t, _, 0, acc =>
      match t with
      | .leaf => acc
      | .node e p _ _ => if e then (true, p) else acc
  | t, pos, k + 1, acc =>
      match t with
      | .leaf => acc
      | .node e p l r =>
          let acc := if e then (true, p) else acc
          containsLoop bytes (if goBit bytes pos = 0 then l else r) (pos + 1) k acc

/-- Go ipRadixTree.contains: returns (found, prefix length of the most
specific endpoint passed). IPv4 addresses are widened to the mapped form
and walked from bit 96 for 32 steps; IPv6 addresses from bit 0 for 128. -/
def treeContains (t : RTree) (ip : GoIP) : Bool × Nat :=
  match to4 ip with
  | some ip4 => containsLoop (to16 ip4) t 96 32 (false, 0)
  | none => containsLoop ip t 0 128 (false, 0)

/-- Fold inserting a list of networks into the tree rooted at emptyRoot. -/
def buildTree (l : List GoIPNet) : RTree :=
  l.foldl treeInsert emptyRoot

/-! ### Pure path view of the radix tree

The loops above index a byte array; the proofs go through an equivalent
bit-list view: the sequence of bits a loop visits, with one step per
list element. -/

/-- The bits visited by a loop that starts at bit position pos and runs
for k steps, true meaning the right child. -/
def bitsRange (bytes : List Nat) (pos k : Nat) : List Bool :=
  (List.range k).map fun i => goBit bytes (pos + i) == 1

/-- Bit list of one byte, most significant bit first. -/
def byteBits (b : Nat) : List Bool :=
  (List.range 8).map fun j => (b >>> (7 - j)) &&& 1 == 1

/-- Bit list of a byte array. -/
def bytesBits (bs : List Nat) : List Bool :=
  bs.flatMap byteBits

/-- insertLoop on its bit-list view. -/
def insPath : RTree → List Bool → Nat → RTree
  | t, [], plen =>
      match t with
      | .leaf => .node true plen .leaf .leaf
      | .node _ _ l r => .node true plen l r
  | t, b :: bs, plen =>
      match t with
      | .leaf =>
          if b then .node false 0 .leaf (insPath .leaf bs plen)
          else .node false 0 (insPath .leaf bs plen) .leaf
      | .node e p l r =>
          if b then .node e p l (insPath r bs plen)
          else .node e p (insPath l bs plen) r

/-- containsLoop on its bit-list view. -/
def walkPath : RTree → List Bool → Bool × Nat → Bool × Nat
  | t, [], acc =>
      match t with
      | .leaf => acc
      | .node e p _ _ => if e then (true, p) else acc
  | t, b :: bs, acc =>
      match t with
      | .leaf => acc
      | .node e p l r => walkPath (if b then r else l) bs (if e then (true, p) else acc)

/-- Endpoint information stored at the end of a path. -/
def endp : RTree → List Bool → Option Nat
  | .leaf, _ => none
  | .node e p _ _, [] => if e then some p else none
  | .node _ _ l r, b :: bs => endp (if b then r else l) bs

/-- Prefix lengths of the endpoints passed while walking a path, in
order of increasing depth. -/
def matchLens : RTree → List Bool → List Nat
  | .leaf, _ => []
  | .node e p _ _, [] => if e then [p] else []
  | .node e p l r, b :: bs => (if e then [p] else []) ++ matchLens (if b then r else l) bs

/-- The bit path under which a network is stored by treeInsert. -/
def netPath (net : GoIPNet) : List Bool :=
  match to4 net.ip with
  | some ip4 => bitsRange (to16 ip4) 96 (maskSize net.mask)
  | none => bitsRange net.ip 0 (maskSize net.mask)

/-- The bit path walked for an address by treeContains. -/
def addrKey (ip : GoIP) : List Bool :=
  match to4 ip with
  | some ip4 => bitsRange (to16 ip4) 96 32
  | none => bitsRange ip 0 128

/-- An IPv4 network as produced by parseCIDR: an address in the 4-byte
family and a CIDR mask of at most 32 leading ones over 32 bits. -/
def wfV4 (net : GoIPNet) : Bool :=
  (to4 net.ip).isSome && net.mask == cidrMask (maskSize net.mask) 32
    && maskSize net.mask ≤ 32

/-- An IPv6 (non-IPv4-mapped) network as produced by parseCIDR. -/
def wfV6 (net : GoIPNet) : Bool :=
  (to4 net.ip).isNone && net.ip.length == 16
    && net.mask == cidrMask (maskSize net.mask) 128 && maskSize net.mask ≤ 128

/-- Go NewIpLookupHelper: parse every CIDR string, failing on the first
parse error, and insert the rest into a fresh radix tree. -/
def NewIpLookupHelper (cidrBlocks : List String) : Except String RTree :=
  go cidrBlocks emptyRoot
where
  go : List String → RTree → Except String RTree
  | [], t => .ok t
  | cidr :: rest, t =>
      match parseCIDR cidr with
      | none => .error ("parse error on CIDR " ++ cidr)
      | some block => go rest (treeInsert t block)

/-- Go IpLookupHelper.IsContained (the error value is always nil in the
source, so the pair is returned directly). -/
def IsContained (t : RTree) (ipAddr : GoIP) : Bool × Nat :=
  treeContains t ipAddr

/-! ## The admission decision (plugin source: Plugin.CheckAllowed)

The repository carries two versions of the decision function: plugin.go
keeps the CIDR lists as slices and scans them linearly, and looks the
country up only after the IP-block rules; the file-monitor version keeps
radix trees and looks the country up before the IP-block rules. Both are
embedded. The ip2location database behind Plugin.Lookup is opaque and is
passed in as a lookup function. -/

/-- Go Plugin.isInIPBlocks (plugin.go): linear scan over the configured
networks, returning the mask size of the FIRST network containing the
address (the always-nil error is dropped). -/
def isInIPBlocks (ipAddr : GoIP) : List GoIPNet → Bool × Nat
  | [] => (false, 0)
  | block :: rest =>
      if netContains block ipAddr then (true, maskSize block.mask)
      else isInIPBlocks ipAddr rest

/-- Go Plugin.Lookup: query the database, then treat a country string
starting with an invalid marker as an error. -/
def pluginLookup (dbGet : String → Except String String) (ip : String) :
    Except String String :=
  match dbGet ip with
  | .error e => .error e
  | .ok c =>
      if goHasPfx "invalid".toList (asciiToLower c.toList) then .error c else .ok c

/-- Decision-relevant configuration of the plugin.go Plugin value. -/
structure PluginGo where
  allowedCountries : List String
  blockedCountries : List String
  defaultAllow : Bool
  allowPrivate : Bool
  allowedIPBlocks : List GoIPNet
  blockedIPBlocks : List GoIPNet

/-- Country phase of plugin.go Plugin.CheckAllowed: the shared
fall-through after the IP-block rules decided nothing. -/
def countryPhase (p : PluginGo) (dbGet : String → Except String String)
    (ip : String) : Except String (Bool × String × String) :=
  match pluginLookup dbGet ip with
  | .error e => .error ("lookup of " ++ ip ++ " failed: " ++ e)
  | .ok country =>
      if p.allowedCountries.contains country then .ok (true, country, "allowed_country")
      else if p.blockedCountries.contains country then .ok (false, country, "blocked_country")
      else if p.defaultAllow then .ok (true, country, "default_allow")
      else .ok (false, country, "default_allow")

/-- Go Plugin.CheckAllowed (plugin.go): parse, private short-circuit,
IP-block rules with the longer-prefix tie-break, then country rules. In
the IP-block phases the named return value country is still its zero
value, hence the empty country string there. -/
def CheckAllowed (p : PluginGo) (dbGet : String → Except String String)
    (ip : String) : Except String (Bool × String × String) :=
  match parseIP ip with
  | none => .error ("unable to parse IP address from [" ++ ip ++ "]")
  | some ipAddr =>
      if isPrivate ipAddr then
        if p.allowPrivate then .ok (true, "PRIVATE", "allow_private")
        else .ok (false, "PRIVATE", "allow_private")
      else
        let (blocked, blockedNetworkLength) := isInIPBlocks ipAddr p.blockedIPBlocks
        let (allowed, allowedNetworkLength) := isInIPBlocks ipAddr p.allowedIPBlocks
        if allowedNetworkLength < blockedNetworkLength ∧ 0 < allowedNetworkLength
            ∧ 0 < blockedNetworkLength then
          if blocked then .ok (false, "", "blocked_ip_block")
          else if allowed then .ok (true, "", "allowed_ip_block")
          else countryPhase p dbGet ip
        else
          if allowed then .ok (true, "", "allowed_ip_block")
          else if blocked then .ok (false, "", "blocked_ip_block")
          else countryPhase p dbGet ip

/-- Decision-relevant configuration of the file-monitor Plugin value
(the IP blocks are the radix trees of its IpLookupFileMonitor helpers). -/
structure PluginFM where
  allowedCountries : List String
  blockedCountries : List String
  defaultAllow : Bool
  allowPrivate : Bool
  allowedIPBlocks : RTree
  blockedIPBlocks : RTree

/-- Go Plugin.CheckAllowed, file-monitor version: the country is looked
up FIRST (so it is available for all code paths) and its error is
returned before the IP-block rules run; the IP-block rules then use the
radix trees and the same tie-break, carrying the looked-up country. -/
def CheckAllowedFM (p : PluginFM) (dbGet : String → Except String String)
    (ip : String) : Except String (Bool × String × String) :=
  match parseIP ip with
  | none => .error ("unable to parse IP address from [" ++ ip ++ "]")
  | some ipAddr =>
      if isPrivate ipAddr then
        if p.allowPrivate then .ok (true, "PRIVATE", "allow_private")
        else .ok (false, "PRIVATE", "allow_private")
      else
        match pluginLookup dbGet ip with
        | .error e => .error ("lookup of " ++ ip ++ " failed: " ++ e)
        | .ok country =>
            let (blocked, blockedNetworkLength) := IsContained p.blockedIPBlocks ipAddr
            let (allowed, allowedNetworkLength) := IsContained p.allowedIPBlocks ipAddr
            if allowedNetworkLength < blockedNetworkLength ∧ 0 < allowedNetworkLength
                ∧ 0 < blockedNetworkLength then
              if blocked then .ok (false, country, "blocked_ip_block")
              else if allowed then .ok (true, country, "allowed_ip_block")
              else countryTail p country
            else
              if allowed then .ok (true, country, "allowed_ip_block")
              else if blocked then .ok (false, country, "blocked_ip_block")
              else countryTail p country
where
  /-- Country rules and default of the file-monitor CheckAllowed. -/
  countryTail (p : PluginFM) (country : String) :
      Except String (Bool × String × String) :=
    if p.allowedCountries.contains country then .ok (true, country, "allowed_country")
    else if p.blockedCountries.contains country then .ok (false, country, "blocked_country")
    else if p.defaultAllow then .ok (true, country, "default_allow")
    else .ok (false, country, "default_allow")

/-! ## Directory-based range sets (filemonitor source) -/

/-- Go unicode.IsSpace restricted to the ASCII range, as used by
strings.TrimSpace (header values and CIDR lines are ASCII). -/
def isGoSpace (c : Char) : Bool :=
  c == ' ' || c == '\t' || c == '\n' || c == Char.ofNat 11 || c == Char.ofNat 12 || c == '\r'

/-- Go strings.TrimSpace (ASCII fragment): drop spaces at both ends. -/
def goTrimSpace (s : String) : String :=
  ⟨(s.toList.dropWhile isGoSpace).reverse.dropWhile isGoSpace |>.reverse⟩

/-- Line loop of Go readBlocksFromFile: a file is its list of lines;
trimmed blank lines and lines starting with a number sign are skipped,
lines that do not parse as a CIDR are skipped with a warning, and the
remaining trimmed lines are collected in order. -/
def readBlocksFromFile (lines : List String) : List String :=
  go lines
where
  go : List String → List String
  | [] => []
  | rawLine :: rest =>
      let line := goTrimSpace rawLine
      if line = "" || goHasPfx "#".toList line.toList then go rest
      else if (parseCIDR line).isNone then go rest
      else line :: go rest

/-- Modelled from the spec: IpLookupHelper state with an entry count.
The methods NewEmptyIpLookupHelper, AddCIDR and Count are called from the
file-monitor source but their defining file is not among the sources;
the spec describes a RangeSet holding one PrefixTrie plus an entry
count, whose insert parses the CIDR and fails with a parse error when
the string does not parse, inserting into the trie otherwise. -/
structure IpLookupHelperM where
  tree : RTree
  count : Nat
deriving Repr

/-- Modelled from the spec: an empty helper (empty trie, zero entries). -/
def NewEmptyIpLookupHelper : IpLookupHelperM := ⟨emptyRoot, 0⟩

/-- Modelled from the spec: parse the CIDR string and insert it into the
trie, counting the entry; a string that does not parse is an error. -/
def AddCIDR (h : IpLookupHelperM) (cidr : String) : Except String IpLookupHelperM :=
  match parseCIDR cidr with
  | none => .error ("failed to parse CIDR " ++ cidr)
  | some block => .ok ⟨treeInsert h.tree block, h.count + 1⟩

/-- Per-file loop of Go insertBlocksFromDirectory: AddCIDR failures are
logged and skipped. -/
def addBlocks (h : IpLookupHelperM) : List String → IpLookupHelperM
  | [] => h
  | cidr :: rest =>
      match AddCIDR h cidr with
      | .error _ => addBlocks h rest
      | .ok h2 => addBlocks h2 rest

/-- Go insertBlocksFromDirectory: the directory is modelled as the list
of its text files, each being its list of lines; every file contributes
its readBlocksFromFile lines, with individual insertion failures
skipped. -/
def insertBlocksFromDirectory (h : IpLookupHelperM) (files : List (List String)) :
    IpLookupHelperM :=
  match files with
  | [] => h
  | f :: rest => insertBlocksFromDirectory (addBlocks h (readBlocksFromFile f)) rest

/-- Go NewIpLookupFileMonitor: static blocks first (any failure there is
fatal), then the directory files with per-line tolerance. -/
def NewIpLookupFileMonitor (cidrBlocks : List String) (files : List (List String)) :
    Except String IpLookupHelperM :=
  match goStatic cidrBlocks NewEmptyIpLookupHelper with
  | .error e => .error e
  | .ok h => .ok (insertBlocksFromDirectory h files)
where
  goStatic : List String → IpLookupHelperM → Except String IpLookupHelperM
  | [], h => .ok h
  | cidr :: rest, h =>
      match AddCIDR h cidr with
      | .error e => .error ("failed to add static CIDR block: " ++ e)
      | .ok h2 => goStatic rest h2

/-! ## Database factory registry (database_factory source) -/

/-- Go DatabaseConfig. -/
structure DatabaseConfig where
  DatabaseFilePath : String
  DatabaseAutoUpdate : Bool
  DatabaseAutoUpdateDir : String
  DatabaseAutoUpdateToken : String
  DatabaseAutoUpdateCode : String
deriving DecidableEq, Repr

/-- Lowercase hexadecimal digit byte, as used by the JSON escaper. -/
def hexDigitByte (n : Nat) : Nat :=
  if n < 10 then 48 + n else 87 + n

/-- Byte escaping of Go encoding/json string encoding (with its default
HTML escaping): quote, backslash, newline, carriage return and tab get
two-byte escapes, other control bytes and the angle-bracket/ampersand
bytes get a six-byte u-escape, everything else passes through. -/
def jsonEscapeByte (b : Nat) : List Nat :=
  if b = 34 then [92, 34]
  else if b = 92 then [92, 92]
  else if b = 10 then [92, 110]
  else if b = 13 then [92, 114]
  else if b = 9 then [92, 116]
  else if b < 32 || b = 60 || b = 62 || b = 38 then
    [92, 117, 48, 48, hexDigitByte (b / 16), hexDigitByte (b % 16)]
  else [b]

/-- Go encoding/json string literal bytes. The model identifies bytes
with code points, which is exact for ASCII contents (the configuration
strings of interest are ASCII). -/
def jsonStringBytes (s : String) : List Nat :=
  34 :: s.toList.flatMap (fun c => jsonEscapeByte c.toNat) ++ [34]

/-- ASCII bytes of a literal key fragment. -/
def asciiBytes (s : String) : List Nat :=
  s.toList.map Char.toNat

/-- Go encoding/json bytes of a boolean. -/
def jsonBoolBytes (b : Bool) : List Nat :=
  if b then asciiBytes "true" else asciiBytes "false"

/-- Go json.Marshal of a DatabaseConfig value: an object with the five
exported fields in declaration order (123 and 125 are the brace bytes). -/
def jsonMarshalConfig (c : DatabaseConfig) : List Nat :=
  [123]
    ++ asciiBytes "\"DatabaseFilePath\":" ++ jsonStringBytes c.DatabaseFilePath
    ++ asciiBytes ",\"DatabaseAutoUpdate\":" ++ jsonBoolBytes c.DatabaseAutoUpdate
    ++ asciiBytes ",\"DatabaseAutoUpdateDir\":" ++ jsonStringBytes c.DatabaseAutoUpdateDir
    ++ asciiBytes ",\"DatabaseAutoUpdateToken\":" ++ jsonStringBytes c.DatabaseAutoUpdateToken
    ++ asciiBytes ",\"DatabaseAutoUpdateCode\":" ++ jsonStringBytes c.DatabaseAutoUpdateCode
    ++ [125]

/-- Go hash/fnv New32 (FNV-1, 32 bits): for each byte, multiply by the
prime modulo 2^32, then xor the byte in. -/
def fnv32 (data : List Nat) : Nat :=
  data.foldl (fun h b => ((h * 16777619) % 4294967296) ^^^ b) 2166136261

/-- Go generateConfigHash: decimal rendering of the FNV-1/32 hash of the
JSON serialization (marshaling a DatabaseConfig never fails, so the
fallback branch of the source is unreachable). -/
def generateConfigHash (config : DatabaseConfig) : String :=
  natDecimalString (fnv32 (jsonMarshalConfig config))

/-- State of the package-level factory registry: the map from config
hash to factory, factories being named by the order of their creation. -/
structure FactoryRegistry where
  factories : List (String × Nat)
  nextId : Nat

/-- Go GetDatabaseFactory (the registry transition; locking is the
concurrency wrapper around this sequential behaviour): return the
factory registered under the config hash, or create and register a
fresh one. -/
def GetDatabaseFactory (reg : FactoryRegistry) (config : DatabaseConfig) :
    Nat × FactoryRegistry :=
  let key := generateConfigHash config
  match reg.factories.find? (fun pr => pr.1 == key) with
  | some pr => (pr.2, reg)
  | none => (reg.nextId, ⟨(key, reg.nextId) :: reg.factories, reg.nextId + 1⟩)

/-! ## Hot swap (database_factory source: performHotSwap / checkAndUpdate) -/

/-- The swappable fields of Go DatabaseWrapper: database handle, path
and parsed version (handles and versions are named by numbers since the
binary reader is opaque). -/
structure WrapperState where
  db : Option Nat
  path : String
  version : Option Nat
deriving DecidableEq, Repr

/-- The mutable fields of Go DatabaseFactory touched by a hot swap. -/
structure FactoryState where
  wrapper : WrapperState
  currentLocalDbCopy : String
  sourceDbPath : String
deriving DecidableEq, Repr

/-- Outcomes of the effectful steps of a hot swap: copying the file to a
fresh local path, opening the database, and parsing its version. -/
structure SwapEnv where
  copyResult : String → Except String String
  openResult : String → Except String Nat
  versionResult : String → Except String Nat

/-- Go createLocalDatabaseCopy: on success the factory records the fresh
local copy path; on failure the state is untouched. -/
def createLocalDatabaseCopy (env : SwapEnv) (st : FactoryState) (sourcePath : String) :
    Except String String × FactoryState :=
  match env.copyResult sourcePath with
  | .error e => (.error ("failed to create local copy: " ++ e), st)
  | .ok tmpFile => (.ok tmpFile, { st with currentLocalDbCopy := tmpFile })

/-- Go performHotSwap: copy, open, read the version; only when all three
succeed are the wrapper fields swapped and the tracking fields updated.
Failures return an error with the wrapper untouched. -/
def performHotSwap (env : SwapEnv) (st : FactoryState) (newDatabasePath : String) :
    Except String Unit × FactoryState :=
  match createLocalDatabaseCopy env st newDatabasePath with
  | (.error e, st1) => (.error e, st1)
  | (.ok newLocalCopy, st1) =>
      match env.openResult newLocalCopy with
      | .error e => (.error ("failed to open new database: " ++ e), st1)
      | .ok newDB =>
          match env.versionResult newLocalCopy with
          | .error e => (.error ("failed to read new database version: " ++ e), st1)
          | .ok newVersion =>
              (.ok (),
               { wrapper := ⟨some newDB, newLocalCopy, some newVersion⟩,
                 currentLocalDbCopy := newLocalCopy,
                 sourceDbPath := newDatabasePath })

/-- Outcomes of the effectful steps of a background update check. -/
structure UpdateEnv where
  swap : SwapEnv
  ageDays : Nat → Nat
  findLatestFirst : Except String String
  updateResult : Except String Unit
  findLatestSecond : Except String String

/-- Go checkAndUpdate: every failure path only logs and returns, leaving
the state as is; only a fully successful hot swap changes it. The
function has no error output: errors are never propagated. -/
def checkAndUpdate (env : UpdateEnv) (st : FactoryState) : FactoryState :=
  match st.wrapper.version with
  | none => st
  | some currentVersion =>
      if env.ageDays currentVersion < 30 then st
      else
        let latest := match env.findLatestFirst with
          | .error _ => ""
          | .ok l => l
        match env.updateResult with
        | .error _ => st
        | .ok _ =>
            match env.findLatestSecond with
            | .error _ => st
            | .ok newLatest =>
                if newLatest = "" ∨ newLatest = latest then st
                else (performHotSwap env.swap st newLatest).2

/-! ## Remote IP extraction (plugin source: GetRemoteIPs) -/

/-- Index of the last colon of a character list (Go last(s, ':')). -/
def lastColonIdx (s : List Char) : Option Nat :=
  go s 0 none
where
  go : List Char → Nat → Option Nat → Option Nat
  | [], _, acc => acc
  | c :: cs, i, acc => go cs (i + 1) (if c = ':' then some i else acc)

/-- Index of the first occurrence of a character (Go byteIndex). -/
def firstIdx (s : List Char) (target : Char) : Option Nat :=
  go s 0
where
  go : List Char → Nat → Option Nat
  | [], _ => none
  | c :: cs, i => if c = target then some i else go cs (i + 1)

/-- Go net.SplitHostPort: the bracketed and plain forms, with the too
many colons and missing port checks; errors collapse to none. -/
def goSplitHostPort (hostPort : String) : Option (String × String) :=
  let s := hostPort.toList
  match lastColonIdx s with
  | none => none
  | some i =>
      if s.headD ' ' == '[' then
        match firstIdx s ']' with
        | none => none
        | some endIdx =>
            if endIdx + 1 = s.length then none
            else if endIdx + 1 ≠ i then none
            else
              let host := (s.drop 1).take (endIdx - 1)
              if (firstIdx (s.drop 1) '[').isSome then none
              else if (firstIdx (s.drop (endIdx + 1)) ']').isSome then none
              else some (⟨host⟩, ⟨s.drop (i + 1)⟩)
      else
        let host := s.take i
        if (firstIdx host ':').isSome then none
        else if (firstIdx s '[').isSome then none
        else if (firstIdx s ']').isSome then none
        else some (⟨host⟩, ⟨s.drop (i + 1)⟩)

/-- Go cleanIPAddress: trim, then keep the host part when the piece
parses as host colon port, otherwise keep the piece. -/
def cleanIPAddress (ip : String) : String :=
  let ip := goTrimSpace ip
  if ip = "" then ""
  else
    match goSplitHostPort ip with
    | some (host, _) => host
    | none => ip

/-- Go Plugin.GetRemoteIPs: for each configured header, split its value
on commas, clean each piece, drop empties, and collect the rest into a
set (the Go map; its iteration order, hence the order of the returned
slice, is unspecified, so the result is modelled as the set itself). -/
def GetRemoteIPs (ipHeaders : List String) (hget : String → String) : Finset String :=
  ipHeaders.foldl
    (fun uniqIPs headerName =>
      let headerValue := hget headerName
      if headerValue ≠ "" then
        (goSplitComma headerValue).foldl
          (fun u piece =>
            let ip := cleanIPAddress piece
            if ip = "" then u else insert ip u)
          uniqIPs
      else uniqIPs)
    ∅

/-! ## Lemmas: loop to path-view bridges -/

theorem goBit_le_one (bytes : List Nat) (pos : Nat) : goBit bytes pos ≤ 1 := by
  unfold goBit
  rw [Nat.and_one_is_mod]
  exact Nat.le_of_lt_succ (Nat.mod_lt _ (by norm_num))

theorem bitsRange_zero (bytes : List Nat) (pos : Nat) : bitsRange bytes pos 0 = [] := rfl

theorem bitsRange_succ (bytes : List Nat) (pos k : Nat) :
    bitsRange bytes pos (k + 1) = (goBit bytes pos == 1) :: bitsRange bytes (pos + 1) k := by
  unfold bitsRange
  rw [List.range_succ_eq_map, List.map_cons, List.map_map]
  refine congrArg₂ List.cons (by simp) ?_
  refine List.map_congr_left fun i _ => ?_
  show (goBit bytes (pos + (i + 1)) == 1) = (goBit bytes (pos + 1 + i) == 1)
  have h : pos + (i + 1) = pos + 1 + i := by omega
  rw [h]

theorem bitsRange_length (bytes : List Nat) (pos k : Nat) :
    (bitsRange bytes pos k).length = k := by
  simp [bitsRange]

theorem insertLoop_eq_insPath (bytes : List Nat) (plen : Nat) :
    ∀ (k : Nat) (t : RTree) (pos : Nat),
      insertLoop bytes plen t pos k = insPath t (bitsRange bytes pos k) plen := by
  intro k
  induction k with
  | zero => intro t pos; rw [bitsRange_zero]; cases t <;> rfl
  | succ k ih =>
      intro t pos
      rw [bitsRange_succ]
      have hb := goBit_le_one bytes pos
      rcases Nat.lt_or_ge (goBit bytes pos) 1 with h | h
      · have h0 : goBit bytes pos = 0 := by omega
        cases t <;> simp [insertLoop, insPath, h0, ih]
      · have h1 : goBit bytes pos = 1 := by omega
        cases t <;> simp [insertLoop, insPath, h1, ih]

theorem containsLoop_eq_walkPath (bytes : List Nat) :
    ∀ (k : Nat) (t : RTree) (pos : Nat) (acc : Bool × Nat),
      containsLoop bytes t pos k acc = walkPath t (bitsRange bytes pos k) acc := by
  intro k
  induction k with
  | zero => intro t pos acc; rw [bitsRange_zero]; cases t <;> rfl
  | succ k ih =>
      intro t pos acc
      rw [bitsRange_succ]
      have hb := goBit_le_one bytes pos
      rcases Nat.lt_or_ge (goBit bytes pos) 1 with h | h
      · have h0 : goBit bytes pos = 0 := by omega
        cases t <;> simp [containsLoop, walkPath, h0, ih]
      · have h1 : goBit bytes pos = 1 := by omega
        cases t <;> simp [containsLoop, walkPath, h1, ih]

theorem treeInsert_eq_insPath (t : RTree) (net : GoIPNet) :
    treeInsert t net = insPath t (netPath net) (maskSize net.mask) := by
  unfold treeInsert netPath
  cases h : to4 net.ip <;> simp [h, insertLoop_eq_insPath]

theorem treeContains_eq_walkPath (t : RTree) (ip : GoIP) :
    treeContains t ip = walkPath t (addrKey ip) (false, 0) := by
  unfold treeContains addrKey
  cases h : to4 ip <;> simp [h, containsLoop_eq_walkPath]

theorem netPath_length (net : GoIPNet) : (netPath net).length = maskSize net.mask := by
  unfold netPath
  cases to4 net.ip <;> simp [bitsRange_length]

/-! ## Lemmas: endpoint structure of built trees -/

theorem endp_leaf (p : List Bool) : endp .leaf p = none := by
  cases p <;> rfl

theorem endp_insPath :
    ∀ (q : List Bool) (t : RTree) (p : List Bool) (k : Nat),
      endp (insPath t q k) p = if p = q then some k else endp t p := by
  intro q
  induction q with
  | nil =>
      intro t p k
      cases t with
      | leaf =>
          cases p with
          | nil => simp [insPath, endp]
          | cons b bs => cases b <;> simp [insPath, endp, endp_leaf]
      | node e pr l r =>
          cases p with
          | nil => simp [insPath, endp]
          | cons b bs => cases b <;> simp [insPath, endp]
  | cons qb qs ih =>
      intro t p k
      cases t with
      | leaf =>
          cases p with
          | nil => cases qb <;> simp [insPath, endp]
          | cons pb ps =>
              cases qb <;> cases pb <;> simp [insPath, endp, ih, endp_leaf]
      | node e pr l r =>
          cases p with
          | nil => cases qb <;> simp [insPath, endp]
          | cons pb ps =>
              cases qb <;> cases pb <;> simp [insPath, endp, ih]

theorem endp_emptyRoot (p : List Bool) : endp emptyRoot p = none := by
  cases p with
  | nil => rfl
  | cons b bs => cases b <;> simp [emptyRoot, endp, endp_leaf]

theorem endp_buildTree :
    ∀ (l : List GoIPNet) (t : RTree) (p : List Bool),
      endp (l.foldl treeInsert t) p =
        if p ∈ l.map netPath then some p.length else endp t p := by
  intro l
  induction l with
  | nil => intro t p; simp
  | cons net rest ih =>
      intro t p
      rw [List.foldl_cons, ih, treeInsert_eq_insPath, endp_insPath]
      by_cases hmem : p ∈ rest.map netPath
      · simp [hmem]
      · by_cases hp : p = netPath net
        · subst hp
          simp [hmem, netPath_length]
        · simp [hmem, hp]

theorem filterMap_const_none {α β : Type} (l : List α) :
    l.filterMap (fun _ => (none : Option β)) = [] := by
  induction l with
  | nil => rfl
  | cons a l ih => simp [List.filterMap_cons, ih]

theorem filterMap_if_some (l : List Nat) (p : Nat → Prop) [DecidablePred p] :
    l.filterMap (fun d => if p d then some d else none) = l.filter (fun d => decide (p d)) := by
  induction l with
  | nil => rfl
  | cons a l ih =>
      by_cases h : p a <;> simp [List.filterMap_cons, List.filter_cons, h, ih]

theorem walkPath_matchLens :
    ∀ (a : List Bool) (t : RTree) (acc : Bool × Nat),
      walkPath t a acc =
        match (matchLens t a).getLast? with
        | none => acc
        | some p => (true, p) := by
  intro a
  induction a with
  | nil =>
      intro t acc
      cases t with
      | leaf => rfl
      | node e p l r => cases e <;> simp [walkPath, matchLens]
  | cons b bs ih =>
      intro t acc
      cases t with
      | leaf => rfl
      | node e p l r =>
          rw [show walkPath (.node e p l r) (b :: bs) acc
                = walkPath (if b then r else l) bs (if e then (true, p) else acc) from rfl]
          rw [ih]
          rcases hL : (matchLens (if b then r else l) bs).getLast? with _ | m
          · have hnil : matchLens (if b then r else l) bs = [] := by
              rwa [List.getLast?_eq_none_iff] at hL
            cases e <;> simp [matchLens, hnil]
          · cases e with
            | false =>
                simp only [matchLens, Bool.false_eq_true, if_false, List.nil_append]
                rw [hL]
            | true =>
                rcases hM : matchLens (if b then r else l) bs with _ | ⟨c, cs⟩
                · rw [hM] at hL; cases hL
                · rw [hM] at hL
                  simp only [matchLens, if_true, List.singleton_append, hM,
                    List.getLast?_cons_cons, hL]

theorem matchLens_eq :
    ∀ (a : List Bool) (t : RTree),
      matchLens t a =
        (List.range (a.length + 1)).filterMap (fun d => endp t (a.take d)) := by
  intro a
  induction a with
  | nil =>
      intro t
      cases t with
      | leaf => simp [matchLens, endp_leaf, List.range_succ, filterMap_const_none]
      | node e p l r => cases e <;> simp [matchLens, endp, List.range_succ]
  | cons b bs ih =>
      intro t
      rw [show (b :: bs).length + 1 = (bs.length + 1) + 1 from rfl,
        List.range_succ_eq_map, List.filterMap_cons, List.filterMap_map]
      cases t with
      | leaf =>
          rw [show ((fun d => endp RTree.leaf ((b :: bs).take d)) ∘ Nat.succ)
                = fun _ => (none : Option Nat) by funext d; exact endp_leaf _]
          simp [matchLens, filterMap_const_none, endp_leaf]
      | node e p l r =>
          rw [show ((fun d => endp (RTree.node e p l r) ((b :: bs).take d)) ∘ Nat.succ)
                = fun d => endp (if b then r else l) (bs.take d) by funext d; rfl,
            ← ih]
          cases e <;> simp [matchLens, endp]

theorem pairwise_getLast_le :
    ∀ (L : List Nat), L.Pairwise (· < ·) → ∀ m, L.getLast? = some m → ∀ x ∈ L, x ≤ m := by
  intro L
  induction L with
  | nil => intro _ m hm; cases hm
  | cons a L ih =>
      intro hpw m hm x hx
      rcases List.pairwise_cons.mp hpw with ⟨ha, hL⟩
      cases L with
      | nil =>
          simp at hm hx
          omega
      | cons b L2 =>
          rw [List.getLast?_cons_cons] at hm
          rcases hx with _ | hx
          · exact le_of_lt (ha m (List.mem_of_mem_getLast? hm))
          · exact ih hL m hm x (by assumption)

/-- Longest-prefix-match correctness of the radix tree over its bit-path
semantics: the lookup reports a match exactly when some inserted network
keys a bit path that is a prefix of the bit path walked for the address,
and then reports the maximal stored prefix length among those networks. -/
theorem treeContains_spec (l : List GoIPNet) (ip : GoIP) :
    ((treeContains (buildTree l) ip).1 = true ↔ ∃ net ∈ l, netPath net <+: addrKey ip)
    ∧ (∀ net ∈ l, netPath net <+: addrKey ip →
        maskSize net.mask ≤ (treeContains (buildTree l) ip).2)
    ∧ ((treeContains (buildTree l) ip).1 = true →
        ∃ net ∈ l, netPath net <+: addrKey ip
          ∧ maskSize net.mask = (treeContains (buildTree l) ip).2) := by
  set a := addrKey ip with ha
  have hendp : ∀ p, endp (buildTree l) p
      = if p ∈ l.map netPath then some p.length else none := by
    intro p
    rw [buildTree, endp_buildTree, endp_emptyRoot]
  have hml : matchLens (buildTree l) a
      = (List.range (a.length + 1)).filter (fun d => decide (a.take d ∈ l.map netPath)) := by
    rw [matchLens_eq]
    have hcong : ∀ d ∈ List.range (a.length + 1),
        endp (buildTree l) (a.take d)
          = if a.take d ∈ l.map netPath then some d else none := by
      intro d hd
      rw [hendp]
      by_cases hmem : a.take d ∈ l.map netPath
      · simp only [hmem, if_true, Option.some.injEq]
        rw [List.length_take]
        rw [List.mem_range] at hd
        omega
      · simp [hmem]
    rw [List.filterMap_congr hcong, filterMap_if_some]
  set L := (List.range (a.length + 1)).filter (fun d => decide (a.take d ∈ l.map netPath))
    with hLdef
  have hLpw : L.Pairwise (· < ·) := (List.pairwise_lt_range _).filter _
  have hmemL : ∀ d, d ∈ L ↔ d < a.length + 1 ∧ a.take d ∈ l.map netPath := by
    intro d
    simp [hLdef, List.mem_filter, List.mem_range]
  have hres : treeContains (buildTree l) ip
      = match L.getLast? with | none => (false, 0) | some m => (true, m) := by
    rw [treeContains_eq_walkPath, ← ha, walkPath_matchLens, hml]
  have hdmem : ∀ net ∈ l, netPath net <+: a → (netPath net).length ∈ L := by
    intro net hnet hpre
    rw [hmemL]
    refine ⟨by have := hpre.length_le; omega, ?_⟩
    rw [← List.prefix_iff_eq_take.mp hpre]
    exact List.mem_map_of_mem _ hnet
  rcases hL : L.getLast? with _ | m
  · have hLnil : L = [] := List.getLast?_eq_none_iff.mp hL
    have hnone : ¬ ∃ net ∈ l, netPath net <+: a := by
      rintro ⟨net, hnet, hpre⟩
      have hd := hdmem net hnet hpre
      rw [hLnil] at hd
      cases hd
    rw [hres, hL]
    refine ⟨?_, ?_, ?_⟩
    · constructor
      · intro h; cases h
      · intro h; exact absurd h hnone
    · intro net hnet hpre
      exact absurd ⟨net, hnet, hpre⟩ hnone
    · intro h; cases h
  · have hmL : m ∈ L := List.mem_of_mem_getLast? hL
    have hm := (hmemL m).mp hmL
    obtain ⟨net0, hnet0, hpath0⟩ := List.mem_map.mp hm.2
    rw [hres, hL]
    refine ⟨?_, ?_, ?_⟩
    · constructor
      · intro _
        exact ⟨net0, hnet0, by rw [hpath0]; exact List.take_prefix _ _⟩
      · intro _; rfl
    · intro net hnet hpre
      have hd := hdmem net hnet hpre
      have hle := pairwise_getLast_le L hLpw m hL _ hd
      rw [← netPath_length]
      exact hle
    · intro _
      refine ⟨net0, hnet0, by rw [hpath0]; exact List.take_prefix _ _, ?_⟩
      rw [← netPath_length, hpath0, List.length_take]
      have := hm.1
      simp
      omega

/-! ## Lemmas: bytes, bits and masks -/

theorem to4_length {ip x : GoIP} (h : to4 ip = some x) : x.length = 4 := by
  unfold to4 at h
  split_ifs at h with h1 h2
  · injection h with h
    subst h
    exact h1
  · injection h with h
    subst h
    simp only [Bool.and_eq_true, decide_eq_true_eq, beq_iff_eq] at h2
    rw [List.length_drop]
    omega

theorem bytesBits_cons (b : Nat) (bs : List Nat) :
    bytesBits (b :: bs) = byteBits b ++ bytesBits bs := by
  simp [bytesBits]

theorem bytesBits_append (xs ys : List Nat) :
    bytesBits (xs ++ ys) = bytesBits xs ++ bytesBits ys := by
  simp [bytesBits]

theorem byteBits_length (b : Nat) : (byteBits b).length = 8 := by
  simp [byteBits]

theorem bytesBits_length (bs : List Nat) : (bytesBits bs).length = 8 * bs.length := by
  induction bs with
  | nil => rfl
  | cons b bs ih =>
      rw [bytesBits_cons, List.length_append, byteBits_length, ih, List.length_cons]
      ring

theorem bytesBits_getD (bs : List Nat) :
    ∀ pos : Nat, pos < 8 * bs.length →
      (bytesBits bs).getD pos false = ((bs.getD (pos / 8) 0 >>> (7 - pos % 8)) &&& 1 == 1) := by
  induction bs with
  | nil => intro pos h; simp at h
  | cons b bs ih =>
      intro pos h
      rw [bytesBits_cons]
      by_cases hp : pos < 8
      · rw [List.getD_append _ _ _ _ (by rw [byteBits_length]; omega)]
        have h8 : pos / 8 = 0 := by omega
        have hm : pos % 8 = pos := by omega
        rw [h8, hm]
        show (byteBits b).getD pos false = ((b >>> (7 - pos)) &&& 1 == 1)
        interval_cases pos <;> rfl
      · rw [List.getD_append_right _ _ _ _ (by rw [byteBits_length]; omega)]
        rw [byteBits_length]
        rw [ih (pos - 8) (by simp at h ⊢; omega)]
        have h1 : pos / 8 = (pos - 8) / 8 + 1 := by omega
        have h2 : pos % 8 = (pos - 8) % 8 := by omega
        rw [h1, h2]
        rfl

theorem bitsRange_eq_drop_take (bytes : List Nat) :
    ∀ (k pos : Nat), pos + k ≤ 8 * bytes.length →
      bitsRange bytes pos k = ((bytesBits bytes).drop pos).take k := by
  intro k
  induction k with
  | zero => intro pos h; rw [bitsRange_zero]; simp
  | succ k ih =>
      intro pos h
      rw [bitsRange_succ, ih (pos + 1) (by omega)]
      have hlen : pos < (bytesBits bytes).length := by rw [bytesBits_length]; omega
      rw [List.drop_eq_getElem_cons hlen, List.take_succ_cons]
      congr 1
      rw [← List.getD_eq_getElem (bytesBits bytes) false hlen,
        bytesBits_getD bytes pos (by omega)]
      rfl

theorem bytesBits_v4pfx_length : (bytesBits v4InV6Pfx).length = 96 := by
  rw [bytesBits_length]
  rfl

theorem addrKey_v4 {ip ip4 : GoIP} (h : to4 ip = some ip4) :
    addrKey ip = bytesBits ip4 := by
  have h4 : ip4.length = 4 := to4_length h
  unfold addrKey
  rw [h]
  show bitsRange (to16 ip4) 96 32 = bytesBits ip4
  unfold to16
  rw [if_pos h4,
    bitsRange_eq_drop_take _ 32 96
      (by rw [List.length_append, h4]; norm_num [v4InV6Pfx]),
    bytesBits_append, ← bytesBits_v4pfx_length, List.drop_left,
    List.take_of_length_le (by rw [bytesBits_length, h4])]

theorem netPath_v4 {net : GoIPNet} {nn : GoIP} (hnn : to4 net.ip = some nn)
    (hle : maskSize net.mask ≤ 32) :
    netPath net = (bytesBits nn).take (maskSize net.mask) := by
  have h4 : nn.length = 4 := to4_length hnn
  unfold netPath
  rw [hnn]
  show bitsRange (to16 nn) 96 (maskSize net.mask) = _
  unfold to16
  rw [if_pos h4,
    bitsRange_eq_drop_take _ _ 96
      (by rw [List.length_append, h4]; norm_num [v4InV6Pfx]; omega),
    bytesBits_append, ← bytesBits_v4pfx_length, List.drop_left]

theorem addrKey_v6 {ip : GoIP} (h : to4 ip = none) (hl : ip.length = 16) :
    addrKey ip = bytesBits ip := by
  unfold addrKey
  rw [h]
  show bitsRange ip 0 128 = bytesBits ip
  rw [bitsRange_eq_drop_take _ 128 0 (by omega), List.drop_zero,
    List.take_of_length_le (by rw [bytesBits_length, hl])]

theorem netPath_v6 {net : GoIPNet} (h : to4 net.ip = none) (hl : net.ip.length = 16)
    (hle : maskSize net.mask ≤ 128) :
    netPath net = (bytesBits net.ip).take (maskSize net.mask) := by
  unfold netPath
  rw [h]
  show bitsRange net.ip 0 (maskSize net.mask) = _
  rw [bitsRange_eq_drop_take _ _ 0 (by omega), List.drop_zero]

theorem shiftand_beq_testBit (a k : Nat) : ((a >>> k) &&& 1 == 1) = a.testBit k := by
  rw [Nat.testBit_to_div_mod, Nat.and_one_is_mod, Nat.shiftRight_eq_div_pow]
  rcases Nat.mod_two_eq_zero_or_one (a / 2 ^ k) with h | h <;> rw [h] <;> rfl

theorem testBit_255 (j : Nat) : (255 : Nat).testBit j = decide (j < 8) := by
  by_cases h : j < 8
  · rw [decide_eq_true h]
    interval_cases j <;> decide
  · rw [decide_eq_false h]
    have h8 : (2 : Nat) ^ 8 ≤ 2 ^ j := Nat.pow_le_pow_right (by norm_num) (by omega)
    have hlt : (255 : Nat) < 2 ^ j := lt_of_lt_of_le (by norm_num) h8
    exact Nat.testBit_lt_two_pow hlt

theorem land255_eq (a : Nat) : a &&& 255 = a % 2 ^ 8 := by
  have h := Nat.and_pow_two_sub_one_eq_mod a 8
  norm_num at h ⊢
  exact h

theorem byteBits_eq_map (a : Nat) :
    byteBits a = (List.range 8).map (fun j => a.testBit (7 - j)) := by
  unfold byteBits
  exact List.map_congr_left fun j _ => shiftand_beq_testBit a (7 - j)

theorem map_range_eq_iff {f g : Nat → Bool} (n : Nat) :
    (List.range n).map f = (List.range n).map g ↔ ∀ j < n, f j = g j := by
  rw [List.map_eq_map_iff]
  simp [List.mem_range]

theorem byteBits_eq_iff (a b : Nat) :
    byteBits a = byteBits b ↔ a &&& 255 = b &&& 255 := by
  rw [byteBits_eq_map, byteBits_eq_map, map_range_eq_iff, land255_eq, land255_eq]
  constructor
  · intro h
    apply Nat.eq_of_testBit_eq
    intro i
    rw [Nat.testBit_mod_two_pow, Nat.testBit_mod_two_pow]
    by_cases hi : i < 8
    · have hj := h (7 - i) (by omega)
      rw [show 7 - (7 - i) = i by omega] at hj
      simp [hi, hj]
    · simp [hi]
  · intro h j hj
    have ha : a.testBit (7 - j) = (a % 2 ^ 8).testBit (7 - j) := by
      rw [Nat.testBit_mod_two_pow]
      simp [show 7 - j < 8 by omega]
    have hb : b.testBit (7 - j) = (b % 2 ^ 8).testBit (7 - j) := by
      rw [Nat.testBit_mod_two_pow]
      simp [show 7 - j < 8 by omega]
    rw [ha, hb, h]

theorem byteBits_take (a n : Nat) (hn : n ≤ 8) :
    (byteBits a).take n = (List.range n).map (fun j => a.testBit (7 - j)) := by
  rw [byteBits_eq_map, ← List.map_take, List.take_range, min_eq_left hn]

theorem maskByte_testBit (n i : Nat) (hn : n ≤ 8) :
    (255 ^^^ (255 >>> n)).testBit i = decide (8 - n ≤ i ∧ i < 8) := by
  rw [Nat.testBit_xor, Nat.testBit_shiftRight, testBit_255, testBit_255]
  by_cases h1 : i < 8 <;> by_cases h2 : n + i < 8 <;>
    simp [h1, h2] <;> omega

theorem byte_mask_take (a b n : Nat) (hn : n ≤ 8) :
    (a &&& (255 ^^^ (255 >>> n)) = b &&& (255 ^^^ (255 >>> n)))
      ↔ (byteBits a).take n = (byteBits b).take n := by
  rw [byteBits_take a n hn, byteBits_take b n hn, map_range_eq_iff]
  constructor
  · intro h j hj
    have hbit := congrArg (fun x => x.testBit (7 - j)) h
    simp only [Nat.testBit_land] at hbit
    rw [maskByte_testBit n _ hn] at hbit
    have hcond : 8 - n ≤ 7 - j ∧ 7 - j < 8 := by omega
    rw [decide_eq_true hcond] at hbit
    simpa using hbit
  · intro h
    apply Nat.eq_of_testBit_eq
    intro i
    rw [Nat.testBit_land, Nat.testBit_land, maskByte_testBit n i hn]
    by_cases hc : 8 - n ≤ i ∧ i < 8
    · rw [decide_eq_true hc]
      have hj := h (7 - i) (by omega)
      rw [show 7 - (7 - i) = i by omega] at hj
      rw [hj]
    · rw [decide_eq_false hc]
      simp

theorem append_eq_append_iff_len {α : Type} {l₁ l₂ l₃ l₄ : List α}
    (h : l₁.length = l₃.length) : l₁ ++ l₂ = l₃ ++ l₄ ↔ l₁ = l₃ ∧ l₂ = l₄ := by
  constructor
  · intro heq
    exact List.append_inj heq h
  · rintro ⟨rfl, rfl⟩
    rfl

theorem maskedEq_zeroMask :
    ∀ (a b : List Nat), a.length = b.length →
      maskedEq a b (cidrMaskBytes a.length 0) = true := by
  intro a
  induction a with
  | nil =>
      intro b h
      cases b with
      | nil => rfl
      | cons y ys => simp at h
  | cons x xs ih =>
      intro b h
      cases b with
      | nil => simp at h
      | cons y ys =>
          have hlen : xs.length = ys.length := by simpa using h
          simp [cidrMaskBytes, maskedEq, Nat.xor_self, ih ys hlen]

theorem maskedEq_cidr :
    ∀ (a b : List Nat), a.length = b.length → ∀ n,
      (maskedEq a b (cidrMaskBytes a.length n) = true
        ↔ (bytesBits a).take n = (bytesBits b).take n) := by
  intro a
  induction a with
  | nil =>
      intro b h n
      cases b with
      | nil => simp [maskedEq, bytesBits]
      | cons y ys => simp at h
  | cons x xs ih =>
      intro b h n
      cases b with
      | nil => simp at h
      | cons y ys =>
          have hlen : xs.length = ys.length := by simpa using h
          by_cases hn : n ≥ 8
          · rw [show cidrMaskBytes (x :: xs).length n
                  = 255 :: cidrMaskBytes xs.length (n - 8) by
                simp [cidrMaskBytes, hn]]
            rw [bytesBits_cons, bytesBits_cons]
            simp only [List.take_append_eq_append_take, byteBits_length]
            rw [List.take_of_length_le (le_trans (le_of_eq (byteBits_length x)) (by omega)),
              List.take_of_length_le (le_trans (le_of_eq (byteBits_length y)) (by omega)),
              append_eq_append_iff_len (by rw [byteBits_length, byteBits_length])]
            show ((x &&& 255 == y &&& 255) && maskedEq xs ys _) = true ↔ _
            rw [Bool.and_eq_true, beq_iff_eq, ih ys hlen (n - 8), byteBits_eq_iff]
          · rw [show cidrMaskBytes (x :: xs).length n
                  = (255 ^^^ (255 >>> n)) :: cidrMaskBytes xs.length 0 by
                simp [cidrMaskBytes, hn]]
            rw [bytesBits_cons, bytesBits_cons]
            simp only [List.take_append_eq_append_take, byteBits_length]
            rw [show n - 8 = 0 by omega]
            simp only [List.take_zero, List.append_nil]
            show ((x &&& _ == y &&& _) && maskedEq xs ys _) = true ↔ _
            rw [Bool.and_eq_true, beq_iff_eq, maskedEq_zeroMask xs ys hlen,
              byte_mask_take x y n (by omega)]
            simp

theorem cidrMaskBytes_length : ∀ l n, (cidrMaskBytes l n).length = l := by
  intro l
  induction l with
  | zero => intro n; rfl
  | succ l ih =>
      intro n
      unfold cidrMaskBytes
      by_cases h : n ≥ 8 <;> simp [h, ih]

theorem cidrMask_eq_bytes32 (n : Nat) (h : n ≤ 32) : cidrMask n 32 = cidrMaskBytes 4 n := by
  unfold cidrMask
  norm_num
  omega

theorem cidrMask_eq_bytes128 (n : Nat) (h : n ≤ 128) :
    cidrMask n 128 = cidrMaskBytes 16 n := by
  unfold cidrMask
  norm_num
  omega

theorem netContains_v4_iff {net : GoIPNet} (hwf : wfV4 net = true)
    {ip ip4 : GoIP} (h4 : to4 ip = some ip4) :
    netContains net ip = true ↔ netPath net <+: addrKey ip := by
  unfold wfV4 at hwf
  simp only [Bool.and_eq_true, beq_iff_eq, decide_eq_true_eq,
    Option.isSome_iff_exists] at hwf
  obtain ⟨⟨⟨nn, hnn⟩, hmask⟩, hle⟩ := hwf
  have hnn4 : nn.length = 4 := to4_length hnn
  have hip4 : ip4.length = 4 := to4_length h4
  have hmaskbytes : net.mask = cidrMaskBytes 4 (maskSize net.mask) := by
    rw [← cidrMask_eq_bytes32 _ hle]
    exact hmask
  have hmasklen : net.mask.length = 4 := by
    rw [hmaskbytes, cidrMaskBytes_length]
  have hnnm : networkNumberAndMaskOf net.ip net.mask = some (nn, net.mask) := by
    unfold networkNumberAndMaskOf
    rw [hnn]
    simp [hmasklen, hnn4]
  have hcontains : netContains net ip = maskedEq nn ip4 net.mask := by
    unfold netContains
    rw [hnnm, h4]
    simp [hnn4, hip4]
  rw [hcontains, hmaskbytes, show (4 : Nat) = nn.length from hnn4.symm,
    maskedEq_cidr nn ip4 (by omega) (maskSize net.mask),
    netPath_v4 hnn hle, addrKey_v4 h4, List.prefix_iff_eq_take,
    List.length_take, bytesBits_length, hnn4]
  rw [show min (maskSize net.mask) (8 * 4) = maskSize net.mask by omega]

theorem netContains_v6_iff {net : GoIPNet} (hwf : wfV6 net = true)
    {ip : GoIP} (h6 : to4 ip = none) (hlen : ip.length = 16) :
    netContains net ip = true ↔ netPath net <+: addrKey ip := by
  unfold wfV6 at hwf
  simp only [Bool.and_eq_true, beq_iff_eq, decide_eq_true_eq,
    Option.isNone_iff_eq_none] at hwf
  obtain ⟨⟨⟨hnn, hnl⟩, hmask⟩, hle⟩ := hwf
  have hmaskbytes : net.mask = cidrMaskBytes 16 (maskSize net.mask) := by
    rw [← cidrMask_eq_bytes128 _ hle]
    exact hmask
  have hmasklen : net.mask.length = 16 := by
    rw [hmaskbytes, cidrMaskBytes_length]
  have hnnm : networkNumberAndMaskOf net.ip net.mask = some (net.ip, net.mask) := by
    unfold networkNumberAndMaskOf
    rw [hnn]
    simp [hmasklen, hnl]
  have hcontains : netContains net ip = maskedEq net.ip ip net.mask := by
    unfold netContains
    rw [hnnm, h6]
    simp [hnl, hlen]
  rw [hcontains, hmaskbytes, show (16 : Nat) = net.ip.length from hnl.symm,
    maskedEq_cidr net.ip ip (by omega) (maskSize net.mask),
    netPath_v6 hnn hnl hle, addrKey_v6 h6 hlen, List.prefix_iff_eq_take,
    List.length_take, bytesBits_length, hnl]
  rw [show min (maskSize net.mask) (8 * 16) = maskSize net.mask by omega]

theorem isInIPBlocks_eq_find (ipAddr : GoIP) :
    ∀ blocks : List GoIPNet,
      isInIPBlocks ipAddr blocks
        = match blocks.find? (fun net => netContains net ipAddr) with
          | some net => (true, maskSize net.mask)
          | none => (false, 0) := by
  intro blocks
  induction blocks with
  | nil => rfl
  | cons b bs ih =>
      by_cases h : netContains b ipAddr = true <;>
        simp [isInIPBlocks, List.find?_cons, h, ih]

/-! ## Claim C1 -/

/-- C1 counterexample: with 192.168.0.0/16 and 192.168.1.10/32 inserted,
plugin.go isInIPBlocks on 192.168.1.10 returns prefix length 16 (the
first matching entry in slice order), even though the /32 entry also
contains the address; the claim requires the most specific length 32. -/
theorem C1_counterexample :
    parseCIDR "192.168.0.0/16" = some ⟨[192, 168, 0, 0], [255, 255, 0, 0]⟩
    ∧ parseCIDR "192.168.1.10/32" = some ⟨[192, 168, 1, 10], [255, 255, 255, 255]⟩
    ∧ parseIP "192.168.1.10"
        = some [0, 0, 0, 0, 0, 0, 0, 0, 0, 0, 255, 255, 192, 168, 1, 10]
    ∧ isInIPBlocks [0, 0, 0, 0, 0, 0, 0, 0, 0, 0, 255, 255, 192, 168, 1, 10]
        [⟨[192, 168, 0, 0], [255, 255, 0, 0]⟩,
         ⟨[192, 168, 1, 10], [255, 255, 255, 255]⟩] = (true, 16)
    ∧ netContains ⟨[192, 168, 1, 10], [255, 255, 255, 255]⟩
        [0, 0, 0, 0, 0, 0, 0, 0, 0, 0, 255, 255, 192, 168, 1, 10] = true
    ∧ maskSize [255, 255, 255, 255] = 32
    ∧ (16 : Nat) ≠ 32 := by
  decide

/-- Same-family longest-prefix-match correctness over netContains, IPv4
networks and an IPv4 address. -/
theorem treeContains_v4_spec (l : List GoIPNet) (ip ip4 : GoIP)
    (hwf : ∀ net ∈ l, wfV4 net = true) (h4 : to4 ip = some ip4) :
    ((treeContains (buildTree l) ip).1 = l.any fun net => netContains net ip)
    ∧ (∀ net ∈ l, netContains net ip = true →
        maskSize net.mask ≤ (treeContains (buildTree l) ip).2)
    ∧ ((treeContains (buildTree l) ip).1 = true →
        ∃ net ∈ l, netContains net ip = true
          ∧ maskSize net.mask = (treeContains (buildTree l) ip).2) := by
  obtain ⟨h1, h2, h3⟩ := treeContains_spec l ip
  have hiff : ∀ net ∈ l, (netContains net ip = true ↔ netPath net <+: addrKey ip) :=
    fun net hm => netContains_v4_iff (hwf net hm) h4
  refine ⟨?_, ?_, ?_⟩
  · rw [Bool.eq_iff_iff, h1, List.any_eq_true]
    constructor
    · rintro ⟨net, hm, hp⟩
      exact ⟨net, hm, (hiff net hm).mpr hp⟩
    · rintro ⟨net, hm, hc⟩
      exact ⟨net, hm, (hiff net hm).mp hc⟩
  · intro net hm hc
    exact h2 net hm ((hiff net hm).mp hc)
  · intro hf
    obtain ⟨net, hm, hp, he⟩ := h3 hf
    exact ⟨net, hm, (hiff net hm).mpr hp, he⟩

/-- Same-family longest-prefix-match correctness over netContains, IPv6
networks and an IPv6 address. -/
theorem treeContains_v6_spec (l : List GoIPNet) (ip : GoIP)
    (hwf : ∀ net ∈ l, wfV6 net = true) (h6 : to4 ip = none) (hlen : ip.length = 16) :
    ((treeContains (buildTree l) ip).1 = l.any fun net => netContains net ip)
    ∧ (∀ net ∈ l, netContains net ip = true →
        maskSize net.mask ≤ (treeContains (buildTree l) ip).2)
    ∧ ((treeContains (buildTree l) ip).1 = true →
        ∃ net ∈ l, netContains net ip = true
          ∧ maskSize net.mask = (treeContains (buildTree l) ip).2) := by
  obtain ⟨h1, h2, h3⟩ := treeContains_spec l ip
  have hiff : ∀ net ∈ l, (netContains net ip = true ↔ netPath net <+: addrKey ip) :=
    fun net hm => netContains_v6_iff (hwf net hm) h6 hlen
  refine ⟨?_, ?_, ?_⟩
  · rw [Bool.eq_iff_iff, h1, List.any_eq_true]
    constructor
    · rintro ⟨net, hm, hp⟩
      exact ⟨net, hm, (hiff net hm).mpr hp⟩
    · rintro ⟨net, hm, hc⟩
      exact ⟨net, hm, (hiff net hm).mp hc⟩
  · intro net hm hc
    exact h2 net hm ((hiff net hm).mp hc)
  · intro hf
    obtain ⟨net, hm, hp, he⟩ := h3 hf
    exact ⟨net, hm, (hiff net hm).mpr hp, he⟩

/-- C1 (amended): the radix tree lookup (ipRadixTree.contains behind
IsContained) returns, for a same-family lookup over well-formed networks,
found exactly when some inserted CIDR contains the IP, with the maximal
prefix length among the containing CIDRs; plugin.go isInIPBlocks instead
returns the prefix length of the FIRST matching entry in slice order. -/
theorem C1_longest_match_amended :
    (∀ (l : List GoIPNet) (ip ip4 : GoIP), (∀ net ∈ l, wfV4 net = true) →
      to4 ip = some ip4 →
      ((treeContains (buildTree l) ip).1 = l.any fun net => netContains net ip)
      ∧ (∀ net ∈ l, netContains net ip = true →
          maskSize net.mask ≤ (treeContains (buildTree l) ip).2)
      ∧ ((treeContains (buildTree l) ip).1 = true →
          ∃ net ∈ l, netContains net ip = true
            ∧ maskSize net.mask = (treeContains (buildTree l) ip).2))
    ∧ (∀ (l : List GoIPNet) (ip : GoIP), (∀ net ∈ l, wfV6 net = true) →
      to4 ip = none → ip.length = 16 →
      ((treeContains (buildTree l) ip).1 = l.any fun net => netContains net ip)
      ∧ (∀ net ∈ l, netContains net ip = true →
          maskSize net.mask ≤ (treeContains (buildTree l) ip).2)
      ∧ ((treeContains (buildTree l) ip).1 = true →
          ∃ net ∈ l, netContains net ip = true
            ∧ maskSize net.mask = (treeContains (buildTree l) ip).2))
    ∧ (∀ (ipAddr : GoIP) (blocks : List GoIPNet),
        isInIPBlocks ipAddr blocks
          = match blocks.find? (fun net => netContains net ipAddr) with
            | some net => (true, maskSize net.mask)
            | none => (false, 0)) :=
  ⟨fun l ip ip4 hwf h4 => treeContains_v4_spec l ip ip4 hwf h4,
   fun l ip hwf h6 hlen => treeContains_v6_spec l ip hwf h6 hlen,
   fun ipAddr blocks => isInIPBlocks_eq_find ipAddr blocks⟩

/-- C1 witness: the amended theorem applied to the nested example pair of
networks and the address 192.168.1.10, all hypotheses discharged by
evaluation. -/
theorem C1_witness :
    (treeContains
        (buildTree [⟨[192, 168, 0, 0], [255, 255, 0, 0]⟩,
          ⟨[192, 168, 1, 10], [255, 255, 255, 255]⟩])
        [0, 0, 0, 0, 0, 0, 0, 0, 0, 0, 255, 255, 192, 168, 1, 10]).1
      = [(⟨[192, 168, 0, 0], [255, 255, 0, 0]⟩ : GoIPNet),
         ⟨[192, 168, 1, 10], [255, 255, 255, 255]⟩].any
          (fun net => netContains net
            [0, 0, 0, 0, 0, 0, 0, 0, 0, 0, 255, 255, 192, 168, 1, 10]) :=
  (C1_longest_match_amended.1
    [⟨[192, 168, 0, 0], [255, 255, 0, 0]⟩, ⟨[192, 168, 1, 10], [255, 255, 255, 255]⟩]
    [0, 0, 0, 0, 0, 0, 0, 0, 0, 0, 255, 255, 192, 168, 1, 10]
    [192, 168, 1, 10] (by decide) (by decide)).1

/-! ## Claim C5 -/

/-- C5 counterexample: a trie containing only the IPv4 network
10.0.0.0/8 reports found with length 8 for the IPv6 (non-IPv4-mapped)
address a00::1, whose leading bits coincide with those of 10.0.0.0;
the claim requires found to be false for every IPv6 lookup against an
IPv4-only trie. -/
theorem C5_counterexample :
    parseCIDR "10.0.0.0/8" = some ⟨[10, 0, 0, 0], [255, 0, 0, 0]⟩
    ∧ parseIP "a00::1" = some [10, 0, 0, 0, 0, 0, 0, 0, 0, 0, 0, 0, 0, 0, 0, 1]
    ∧ to4 [10, 0, 0, 0, 0, 0, 0, 0, 0, 0, 0, 0, 0, 0, 0, 1] = none
    ∧ treeContains (buildTree [⟨[10, 0, 0, 0], [255, 0, 0, 0]⟩])
        [10, 0, 0, 0, 0, 0, 0, 0, 0, 0, 0, 0, 0, 0, 0, 1] = (true, 8) := by
  decide

/-- C5 (amended): the four lookups of the example behave as claimed, but
IPv4 and IPv6 entries are NOT family-separated: an IPv4 network is keyed
by its 32 address bits and an IPv6 network by its 128 address bits from
the same root (the fixed offset 96 only selects which bytes of the
16-byte form are read), so a lookup of either family reports found
exactly when the bit path of some inserted network, of either family,
is a prefix of the bits walked for the address. -/
theorem C5_coexistence_amended :
    treeContains
        (buildTree [⟨[10, 0, 0, 0], [255, 0, 0, 0]⟩,
          ⟨[32, 1, 13, 184, 0, 0, 0, 0, 0, 0, 0, 0, 0, 0, 0, 0],
           [255, 255, 255, 255, 0, 0, 0, 0, 0, 0, 0, 0, 0, 0, 0, 0]⟩])
        [0, 0, 0, 0, 0, 0, 0, 0, 0, 0, 255, 255, 10, 1, 2, 3] = (true, 8)
    ∧ treeContains
        (buildTree [⟨[10, 0, 0, 0], [255, 0, 0, 0]⟩,
          ⟨[32, 1, 13, 184, 0, 0, 0, 0, 0, 0, 0, 0, 0, 0, 0, 0],
           [255, 255, 255, 255, 0, 0, 0, 0, 0, 0, 0, 0, 0, 0, 0, 0]⟩])
        [32, 1, 13, 184, 0, 0, 0, 0, 0, 0, 0, 0, 0, 0, 0, 1] = (true, 32)
    ∧ treeContains
        (buildTree [⟨[10, 0, 0, 0], [255, 0, 0, 0]⟩,
          ⟨[32, 1, 13, 184, 0, 0, 0, 0, 0, 0, 0, 0, 0, 0, 0, 0],
           [255, 255, 255, 255, 0, 0, 0, 0, 0, 0, 0, 0, 0, 0, 0, 0]⟩])
        [0, 0, 0, 0, 0, 0, 0, 0, 0, 0, 255, 255, 8, 8, 8, 8] = (false, 0)
    ∧ treeContains
        (buildTree [⟨[10, 0, 0, 0], [255, 0, 0, 0]⟩,
          ⟨[32, 1, 13, 184, 0, 0, 0, 0, 0, 0, 0, 0, 0, 0, 0, 0],
           [255, 255, 255, 255, 0, 0, 0, 0, 0, 0, 0, 0, 0, 0, 0, 0]⟩])
        [32, 1, 13, 185, 0, 0, 0, 0, 0, 0, 0, 0, 0, 0, 0, 1] = (false, 0)
    ∧ (∀ (l : List GoIPNet) (ip : GoIP),
        ((treeContains (buildTree l) ip).1 = true
          ↔ ∃ net ∈ l, netPath net <+: addrKey ip)) := by
  refine ⟨by decide, by decide, by decide, by decide, ?_⟩
  intro l ip
  exact (treeContains_spec l ip).1

/-! ## Lemmas: CheckAllowed reductions -/

theorem isInIPBlocks_false_zero (ipAddr : GoIP) :
    ∀ blocks : List GoIPNet,
      (isInIPBlocks ipAddr blocks).1 = false → (isInIPBlocks ipAddr blocks).2 = 0 := by
  intro blocks
  induction blocks with
  | nil => intro _; rfl
  | cons b bs ih =>
      by_cases h : netContains b ipAddr = true
      · simp [isInIPBlocks, h]
      · simpa [isInIPBlocks, h] using ih

theorem CheckAllowed_nonprivate (p : PluginGo) (dbGet : String → Except String String)
    (ip : String) (ipAddr : GoIP) (hparse : parseIP ip = some ipAddr)
    (hpriv : isPrivate ipAddr = false) {bB bA : Bool} {nB nA : Nat}
    (hB : isInIPBlocks ipAddr p.blockedIPBlocks = (bB, nB))
    (hA : isInIPBlocks ipAddr p.allowedIPBlocks = (bA, nA)) :
    CheckAllowed p dbGet ip =
      if nA < nB ∧ 0 < nA ∧ 0 < nB then
        if bB then .ok (false, "", "blocked_ip_block")
        else if bA then .ok (true, "", "allowed_ip_block")
        else countryPhase p dbGet ip
      else
        if bA then .ok (true, "", "allowed_ip_block")
        else if bB then .ok (false, "", "blocked_ip_block")
        else countryPhase p dbGet ip := by
  unfold CheckAllowed
  rw [hparse]
  simp only [hpriv, Bool.false_eq_true, if_false, hB, hA]

theorem CheckAllowedFM_nonprivate (p : PluginFM) (dbGet : String → Except String String)
    (ip : String) (ipAddr : GoIP) (country : String)
    (hparse : parseIP ip = some ipAddr) (hpriv : isPrivate ipAddr = false)
    (hlook : pluginLookup dbGet ip = .ok country) {bB bA : Bool} {nB nA : Nat}
    (hB : IsContained p.blockedIPBlocks ipAddr = (bB, nB))
    (hA : IsContained p.allowedIPBlocks ipAddr = (bA, nA)) :
    CheckAllowedFM p dbGet ip =
      if nA < nB ∧ 0 < nA ∧ 0 < nB then
        if bB then .ok (false, country, "blocked_ip_block")
        else if bA then .ok (true, country, "allowed_ip_block")
        else CheckAllowedFM.countryTail p country
      else
        if bA then .ok (true, country, "allowed_ip_block")
        else if bB then .ok (false, country, "blocked_ip_block")
        else CheckAllowedFM.countryTail p country := by
  unfold CheckAllowedFM
  rw [hparse]
  simp only [hpriv, Bool.false_eq_true, if_false, hlook, hB, hA]

/-! ## Claim C2 -/

/-- C2 counterexample: with allow CIDR 0.0.0.0/0 and block CIDR
8.8.8.0/24, both sets match 8.8.8.9 with unequal lengths 0 and 24, so
the claimed rule says the longer (block) side decides; the code instead
allows because the matched length 0 is excluded from the comparison. -/
theorem C2_counterexample :
    parseCIDR "0.0.0.0/0" = some ⟨[0, 0, 0, 0], [0, 0, 0, 0]⟩
    ∧ parseCIDR "8.8.8.0/24" = some ⟨[8, 8, 8, 0], [255, 255, 255, 0]⟩
    ∧ parseIP "8.8.8.9" = some [0, 0, 0, 0, 0, 0, 0, 0, 0, 0, 255, 255, 8, 8, 8, 9]
    ∧ isInIPBlocks [0, 0, 0, 0, 0, 0, 0, 0, 0, 0, 255, 255, 8, 8, 8, 9]
        [⟨[0, 0, 0, 0], [0, 0, 0, 0]⟩] = (true, 0)
    ∧ isInIPBlocks [0, 0, 0, 0, 0, 0, 0, 0, 0, 0, 255, 255, 8, 8, 8, 9]
        [⟨[8, 8, 8, 0], [255, 255, 255, 0]⟩] = (true, 24)
    ∧ CheckAllowed
        ⟨[], [], false, false, [⟨[0, 0, 0, 0], [0, 0, 0, 0]⟩],
         [⟨[8, 8, 8, 0], [255, 255, 255, 0]⟩]⟩
        (fun _ => .ok "US") "8.8.8.9"
        = .ok (true, "", "allowed_ip_block") := by
  decide

/-- C2 (amended): the tie-break rule holds with the proviso that both
matched lengths are positive: when both sides match with distinct
POSITIVE lengths the longer side decides; otherwise (equal lengths, one
side unmatched, or a matched length 0 from a /0 entry) an allow match
decides over a block match. The 8.8.8.0/24 versus 8.8.8.7/32 example
behaves as claimed. -/
theorem C2_tie_break_amended :
    (∀ (p : PluginGo) (dbGet : String → Except String String) (ip : String)
      (ipAddr : GoIP), parseIP ip = some ipAddr → isPrivate ipAddr = false →
      (((isInIPBlocks ipAddr p.allowedIPBlocks).1 = true →
        (isInIPBlocks ipAddr p.blockedIPBlocks).1 = true →
        0 < (isInIPBlocks ipAddr p.allowedIPBlocks).2 →
        0 < (isInIPBlocks ipAddr p.blockedIPBlocks).2 →
        (isInIPBlocks ipAddr p.allowedIPBlocks).2
          ≠ (isInIPBlocks ipAddr p.blockedIPBlocks).2 →
        CheckAllowed p dbGet ip =
          (if (isInIPBlocks ipAddr p.blockedIPBlocks).2
              < (isInIPBlocks ipAddr p.allowedIPBlocks).2
           then .ok (true, "", "allowed_ip_block")
           else .ok (false, "", "blocked_ip_block")))
      ∧ ((isInIPBlocks ipAddr p.allowedIPBlocks).1 = true →
         ((isInIPBlocks ipAddr p.blockedIPBlocks).2
            ≤ (isInIPBlocks ipAddr p.allowedIPBlocks).2
          ∨ (isInIPBlocks ipAddr p.allowedIPBlocks).2 = 0
          ∨ (isInIPBlocks ipAddr p.blockedIPBlocks).2 = 0) →
         CheckAllowed p dbGet ip = .ok (true, "", "allowed_ip_block"))
      ∧ ((isInIPBlocks ipAddr p.allowedIPBlocks).1 = false →
         (isInIPBlocks ipAddr p.blockedIPBlocks).1 = true →
         CheckAllowed p dbGet ip = .ok (false, "", "blocked_ip_block"))))
    ∧ CheckAllowed
        ⟨[], [], false, false, [⟨[8, 8, 8, 7], [255, 255, 255, 255]⟩],
         [⟨[8, 8, 8, 0], [255, 255, 255, 0]⟩]⟩
        (fun _ => .ok "US") "8.8.8.7"
        = .ok (true, "", "allowed_ip_block")
    ∧ CheckAllowed
        ⟨[], [], false, false, [⟨[8, 8, 8, 7], [255, 255, 255, 255]⟩],
         [⟨[8, 8, 8, 0], [255, 255, 255, 0]⟩]⟩
        (fun _ => .ok "US") "8.8.8.9"
        = .ok (false, "", "blocked_ip_block") := by
  refine ⟨?_, by decide, by decide⟩
  intro p dbGet ip ipAddr hparse hpriv
  rcases hB : isInIPBlocks ipAddr p.blockedIPBlocks with ⟨bB, nB⟩
  rcases hA : isInIPBlocks ipAddr p.allowedIPBlocks with ⟨bA, nA⟩
  have hred := CheckAllowed_nonprivate p dbGet ip ipAddr hparse hpriv hB hA
  simp only [hA, hB]
  refine ⟨?_, ?_, ?_⟩
  · intro ha hb hpa hpb hne
    rw [hred]
    by_cases hlt : nB < nA
    · rw [if_pos hlt, if_neg (by omega)]
      simp [ha]
    · rw [if_neg hlt, if_pos ⟨by omega, hpa, hpb⟩]
      simp [hb]
  · intro ha hcase
    rw [hred, if_neg (by omega)]
    simp [ha]
  · intro ha hb
    have hA0 : nA = 0 := by
      have := isInIPBlocks_false_zero ipAddr p.allowedIPBlocks
      rw [hA] at this
      exact this ha
    rw [hred, if_neg (by omega)]
    simp [ha, hb]

/-- C2 witness: the amended tie-break applied to the example plugin at
8.8.8.7, where the allow /32 entry and the block /24 entry both match
with positive lengths 32 and 24, so the longer allow side decides. -/
theorem C2_witness :
    CheckAllowed
      ⟨[], [], false, false, [⟨[8, 8, 8, 7], [255, 255, 255, 255]⟩],
       [⟨[8, 8, 8, 0], [255, 255, 255, 0]⟩]⟩
      (fun _ => .ok "US") "8.8.8.7"
      = (if (isInIPBlocks [0, 0, 0, 0, 0, 0, 0, 0, 0, 0, 255, 255, 8, 8, 8, 7]
              (⟨[], [], false, false, [⟨[8, 8, 8, 7], [255, 255, 255, 255]⟩],
                [⟨[8, 8, 8, 0], [255, 255, 255, 0]⟩]⟩ : PluginGo).blockedIPBlocks).2
            < (isInIPBlocks [0, 0, 0, 0, 0, 0, 0, 0, 0, 0, 255, 255, 8, 8, 8, 7]
              (⟨[], [], false, false, [⟨[8, 8, 8, 7], [255, 255, 255, 255]⟩],
                [⟨[8, 8, 8, 0], [255, 255, 255, 0]⟩]⟩ : PluginGo).allowedIPBlocks).2
         then .ok (true, "", "allowed_ip_block")
         else .ok (false, "", "blocked_ip_block")) :=
  ((C2_tie_break_amended.1
      ⟨[], [], false, false, [⟨[8, 8, 8, 7], [255, 255, 255, 255]⟩],
       [⟨[8, 8, 8, 0], [255, 255, 255, 0]⟩]⟩
      (fun _ => .ok "US") "8.8.8.7"
      [0, 0, 0, 0, 0, 0, 0, 0, 0, 0, 255, 255, 8, 8, 8, 7]
      (by decide) (by decide)).1
    (by decide) (by decide) (by decide) (by decide) (by decide))

/-! ## Claim C3 -/

/-- C3: loopback addresses are NOT handled by the private short-circuit.
Go IsPrivate (the only predicate CheckAllowed consults) is false for
127.0.0.1 and ::1, so with allow-private=true both versions of
CheckAllowed fall through to the country lookup and return its result
(here, the default-deny with country US), not (true, PRIVATE,
allow_private) as the claim and the repository's own
TestCheckAllowed_Localhost expect; an RFC 1918 address such as
192.168.1.1 does take the private branch. -/
theorem C3_loopback_divergence :
    CheckAllowed ⟨[], [], false, true, [], []⟩ (fun _ => .ok "US") "127.0.0.1"
      = .ok (false, "US", "default_allow")
    ∧ CheckAllowed ⟨[], [], false, true, [], []⟩ (fun _ => .ok "US") "::1"
      = .ok (false, "US", "default_allow")
    ∧ CheckAllowedFM ⟨[], [], false, true, emptyRoot, emptyRoot⟩
        (fun _ => .ok "US") "127.0.0.1"
      = .ok (false, "US", "default_allow")
    ∧ CheckAllowedFM ⟨[], [], false, true, emptyRoot, emptyRoot⟩
        (fun _ => .ok "US") "::1"
      = .ok (false, "US", "default_allow")
    ∧ CheckAllowed ⟨[], [], false, true, [], []⟩ (fun _ => .ok "US") "192.168.1.1"
      = .ok (true, "PRIVATE", "allow_private")
    ∧ isPrivate [0, 0, 0, 0, 0, 0, 0, 0, 0, 0, 255, 255, 127, 0, 0, 1] = false
    ∧ isPrivate [0, 0, 0, 0, 0, 0, 0, 0, 0, 0, 0, 0, 0, 0, 0, 1] = false := by
  decide

/-! ## Claim C4 -/

theorem treeContains_false_zero (t : RTree) (ip : GoIP) :
    (treeContains t ip).1 = false → (treeContains t ip).2 = 0 := by
  rw [treeContains_eq_walkPath, walkPath_matchLens]
  rcases (matchLens t (addrKey ip)).getLast? with _ | m <;> simp

/-- C4 counterexample: in the file-monitor CheckAllowed the country
lookup runs BEFORE the IP-block rules, so a failing lookup produces an
error result even for 8.8.8.7, which the allow rule 8.8.8.7/32
decides; the claim says such an IP can never yield an error. -/
theorem C4_counterexample :
    IsContained (buildTree [⟨[8, 8, 8, 7], [255, 255, 255, 255]⟩])
        [0, 0, 0, 0, 0, 0, 0, 0, 0, 0, 255, 255, 8, 8, 8, 7] = (true, 32)
    ∧ CheckAllowedFM
        ⟨[], [], false, false, buildTree [⟨[8, 8, 8, 7], [255, 255, 255, 255]⟩],
         emptyRoot⟩
        (fun _ => .error "db unavailable") "8.8.8.7"
      = .error "lookup of 8.8.8.7 failed: db unavailable" := by
  decide

/-- C4 (amended): in plugin.go CheckAllowed the claim holds: whenever an
IP-block rule matches a parseable non-private IP, the verdict is the
same for every lookup function and is never an error. (In the
file-monitor version the lookup runs first and its error preempts the
IP-block decision.) -/
theorem C4_ip_block_terminal_amended :
    ∀ (p : PluginGo) (dbGet1 dbGet2 : String → Except String String) (ip : String)
      (ipAddr : GoIP), parseIP ip = some ipAddr → isPrivate ipAddr = false →
      ((isInIPBlocks ipAddr p.allowedIPBlocks).1 = true
        ∨ (isInIPBlocks ipAddr p.blockedIPBlocks).1 = true) →
      CheckAllowed p dbGet1 ip = CheckAllowed p dbGet2 ip
      ∧ ∀ e, CheckAllowed p dbGet1 ip ≠ .error e := by
  intro p dbGet1 dbGet2 ip ipAddr hparse hpriv hdec
  rcases hB : isInIPBlocks ipAddr p.blockedIPBlocks with ⟨bB, nB⟩
  rcases hA : isInIPBlocks ipAddr p.allowedIPBlocks with ⟨bA, nA⟩
  rw [hA, hB] at hdec
  have hred1 := CheckAllowed_nonprivate p dbGet1 ip ipAddr hparse hpriv hB hA
  have hred2 := CheckAllowed_nonprivate p dbGet2 ip ipAddr hparse hpriv hB hA
  by_cases hc : nA < nB ∧ 0 < nA ∧ 0 < nB
  · have hbB : bB = true := by
      by_contra hfalse
      have h0 := isInIPBlocks_false_zero ipAddr p.blockedIPBlocks
      rw [hB] at h0
      have := h0 (by simpa using hfalse)
      simp at this
      omega
    subst hbB
    rw [hred1, hred2, if_pos hc, if_pos hc]
    simp
  · rw [hred1, hred2, if_neg hc, if_neg hc]
    rcases hdec with ha | hb
    · have hba : bA = true := ha
      subst hba
      simp
    · have hbB : bB = true := hb
      subst hbB
      cases bA <;> simp

/-- C4 witness: the amended theorem at 8.8.8.7 with allow rule
8.8.8.7/32, a failing and a succeeding lookup function. -/
theorem C4_witness :
    CheckAllowed
        ⟨[], [], false, false, [⟨[8, 8, 8, 7], [255, 255, 255, 255]⟩], []⟩
        (fun _ => .error "db unavailable") "8.8.8.7"
      = CheckAllowed
        ⟨[], [], false, false, [⟨[8, 8, 8, 7], [255, 255, 255, 255]⟩], []⟩
        (fun _ => .ok "US") "8.8.8.7"
    ∧ ∀ e, CheckAllowed
        ⟨[], [], false, false, [⟨[8, 8, 8, 7], [255, 255, 255, 255]⟩], []⟩
        (fun _ => .error "db unavailable") "8.8.8.7" ≠ .error e :=
  C4_ip_block_terminal_amended
    ⟨[], [], false, false, [⟨[8, 8, 8, 7], [255, 255, 255, 255]⟩], []⟩
    (fun _ => .error "db unavailable") (fun _ => .ok "US") "8.8.8.7"
    [0, 0, 0, 0, 0, 0, 0, 0, 0, 0, 255, 255, 8, 8, 8, 7]
    (by decide) (by decide) (by decide)

/-! ## Claim C9 -/

/-- C9 counterexample: the allow set contains the /0 entry 0.0.0.0/0
(plus 8.0.0.0/8) and the block set 8.8.0.0/16; for 8.8.8.8 the allow
lengths are 8 and the block length 16, so the code blocks, while the
claim says any allow set containing a /0 entry always yields
allow=true with phase allowed_ip_block. -/
theorem C9_counterexample :
    maskSize ([0, 0, 0, 0] : List Nat) = 0
    ∧ CheckAllowedFM
        ⟨[], [], false, false,
         buildTree [⟨[0, 0, 0, 0], [0, 0, 0, 0]⟩, ⟨[8, 0, 0, 0], [255, 0, 0, 0]⟩],
         buildTree [⟨[8, 8, 0, 0], [255, 255, 0, 0]⟩]⟩
        (fun _ => .ok "US") "8.8.8.8"
      = .ok (false, "US", "blocked_ip_block") := by
  decide

/-- C9 (amended): a matched length 0 is excluded from the
more-specific-wins comparison, so when the allow lookup reports
(true, 0) — the /0 entry is the most specific allow match — the allow
side wins regardless of the block match; and whenever the allow lookup
reports a match at all, the decision is made at the IP-block phase
(one of the two ip_block verdicts), never by country rules or the
default flag; a /0 entry makes the tree lookup report a match for
every address. But a more specific allow match re-enters the
comparison, where a still more specific block match wins. -/
theorem C9_zero_prefix_allow_amended :
    (∀ (p : PluginFM) (dbGet : String → Except String String) (ip : String)
      (ipAddr : GoIP) (country : String),
      parseIP ip = some ipAddr → isPrivate ipAddr = false →
      pluginLookup dbGet ip = .ok country →
      ((IsContained p.allowedIPBlocks ipAddr = (true, 0) →
        CheckAllowedFM p dbGet ip = .ok (true, country, "allowed_ip_block"))
      ∧ ((IsContained p.allowedIPBlocks ipAddr).1 = true →
         CheckAllowedFM p dbGet ip = .ok (true, country, "allowed_ip_block")
         ∨ CheckAllowedFM p dbGet ip = .ok (false, country, "blocked_ip_block"))))
    ∧ (∀ (l : List GoIPNet) (ip : GoIP), (∃ net ∈ l, maskSize net.mask = 0) →
        (treeContains (buildTree l) ip).1 = true) := by
  constructor
  · intro p dbGet ip ipAddr country hparse hpriv hlook
    rcases hB : IsContained p.blockedIPBlocks ipAddr with ⟨bB, nB⟩
    constructor
    · intro hA
      have hred := CheckAllowedFM_nonprivate p dbGet ip ipAddr country hparse hpriv hlook hB hA
      rw [hred, if_neg (by omega)]
      simp
    · intro hfound
      rcases hA : IsContained p.allowedIPBlocks ipAddr with ⟨bA, nA⟩
      rw [hA] at hfound
      have hred := CheckAllowedFM_nonprivate p dbGet ip ipAddr country hparse hpriv hlook hB hA
      by_cases hc : nA < nB ∧ 0 < nA ∧ 0 < nB
      · have hbB : bB = true := by
          by_contra hfalse
          have h0 := treeContains_false_zero p.blockedIPBlocks ipAddr
          rw [show treeContains p.blockedIPBlocks ipAddr = (bB, nB) from hB] at h0
          have := h0 (by simpa using hfalse)
          simp at this
          omega
        right
        rw [hred, if_pos hc, hbB]
        simp
      · left
        rw [hred, if_neg hc]
        have hba : bA = true := hfound
        subst hba
        simp
  · intro l ip hzero
    obtain ⟨net, hm, h0⟩ := hzero
    apply (treeContains_spec l ip).1.mpr
    refine ⟨net, hm, ?_⟩
    have hlen : (netPath net).length = 0 := by rw [netPath_length, h0]
    rw [List.length_eq_zero.mp hlen]
    exact List.nil_prefix

/-- C9 witness: the amended theorem applied to an allow tree holding
only 0.0.0.0/0 against a block tree holding 8.8.0.0/16 at 8.8.8.8:
the /0 allow match defeats the more specific block match. -/
theorem C9_witness :
    CheckAllowedFM
        ⟨[], [], false, false, buildTree [⟨[0, 0, 0, 0], [0, 0, 0, 0]⟩],
         buildTree [⟨[8, 8, 0, 0], [255, 255, 0, 0]⟩]⟩
        (fun _ => .ok "US") "8.8.8.8"
      = .ok (true, "US", "allowed_ip_block") :=
  ((C9_zero_prefix_allow_amended.1
      ⟨[], [], false, false, buildTree [⟨[0, 0, 0, 0], [0, 0, 0, 0]⟩],
       buildTree [⟨[8, 8, 0, 0], [255, 255, 0, 0]⟩]⟩
      (fun _ => .ok "US") "8.8.8.8"
      [0, 0, 0, 0, 0, 0, 0, 0, 0, 0, 255, 255, 8, 8, 8, 8] "US"
      (by decide) (by decide) (by decide)).1 (by decide))

/-! ## Claim C6 -/

/-- C6 counterexample: the fingerprint is a 32-bit FNV-1 hash, which is
not injective: the two configurations differing only in their
DatabaseAutoUpdateCode values m3vu and 3tea hash to the same key
4227791574, so the second GetDatabaseFactory call returns the factory
instance created for the first configuration. -/
theorem C6_counterexample :
    (⟨"", false, "", "", "m3vu"⟩ : DatabaseConfig) ≠ ⟨"", false, "", "", "3tea"⟩
    ∧ generateConfigHash ⟨"", false, "", "", "m3vu"⟩
        = generateConfigHash ⟨"", false, "", "", "3tea"⟩
    ∧ generateConfigHash ⟨"", false, "", "", "m3vu"⟩ = "4227791574"
    ∧ (GetDatabaseFactory
          (GetDatabaseFactory ⟨[], 0⟩ ⟨"", false, "", "", "m3vu"⟩).2
          ⟨"", false, "", "", "3tea"⟩).1
        = (GetDatabaseFactory ⟨[], 0⟩ ⟨"", false, "", "", "m3vu"⟩).1 := by
  decide

/-- C6 (amended): byte-identical configurations always yield the same
factory instance; configurations with DISTINCT FINGERPRINTS yield
distinct instances (given the registry invariants that registered ids
are below the allocator and pairwise distinct). Injectivity of
generateConfigHash across all distinct configurations does not hold. -/
theorem C6_singleton_amended :
    (∀ (reg : FactoryRegistry) (c : DatabaseConfig),
      (GetDatabaseFactory (GetDatabaseFactory reg c).2 c).1
        = (GetDatabaseFactory reg c).1)
    ∧ (∀ (reg : FactoryRegistry) (c1 c2 : DatabaseConfig),
        (∀ pr ∈ reg.factories, pr.2 < reg.nextId) →
        (reg.factories.map Prod.snd).Nodup →
        generateConfigHash c1 ≠ generateConfigHash c2 →
        (GetDatabaseFactory (GetDatabaseFactory reg c1).2 c2).1
          ≠ (GetDatabaseFactory reg c1).1) := by
  constructor
  · intro reg c
    unfold GetDatabaseFactory
    generalize generateConfigHash c = key
    rcases hf : reg.factories.find? (fun pr => pr.1 == key) with _ | pr
    · simp [hf, List.find?_cons]
    · simp [hf]
  · intro reg c1 c2 hbound hnodup hne
    unfold GetDatabaseFactory
    generalize hk1 : generateConfigHash c1 = key1 at hne
    generalize hk2 : generateConfigHash c2 = key2 at hne
    rcases hf1 : reg.factories.find? (fun pr => pr.1 == key1) with _ | pr1
    · simp only [hf1]
      rcases hf2 : reg.factories.find? (fun pr => pr.1 == key2) with _ | pr2
      · simp [List.find?_cons, beq_iff_eq, hne, hf2]
      · have hmem2 := List.mem_of_find?_eq_some hf2
        have hlt : pr2.2 < reg.nextId := hbound pr2 hmem2
        simp [List.find?_cons, beq_iff_eq, hne, hf2]
        omega
    · have hmem1 := List.mem_of_find?_eq_some hf1
      have hkey1 : pr1.1 = key1 := by
        have := List.find?_some hf1
        simpa using this
      simp only [hf1]
      rcases hf2 : reg.factories.find? (fun pr => pr.1 == key2) with _ | pr2
      · have hlt : pr1.2 < reg.nextId := hbound pr1 hmem1
        simp [hf2]
        omega
      · have hmem2 := List.mem_of_find?_eq_some hf2
        have hkey2 : pr2.1 = key2 := by
          have := List.find?_some hf2
          simpa using this
        simp only [hf2]
        intro heq
        have hinj := List.inj_on_of_nodup_map hnodup
        have : pr2 = pr1 := hinj hmem2 hmem1 heq
        rw [← this, hkey2] at hkey1
        exact hne hkey1.symm

/-- C6 witness: the amended theorem applied to the empty registry and
two configurations with distinct fingerprints (codes DB1 and DB5),
yielding distinct factory instances. -/
theorem C6_witness :
    (∀ pr ∈ (⟨[], 0⟩ : FactoryRegistry).factories, pr.2 < (⟨[], 0⟩ : FactoryRegistry).nextId)
    ∧ (GetDatabaseFactory
          (GetDatabaseFactory ⟨[], 0⟩ ⟨"", false, "", "", "DB1"⟩).2
          ⟨"", false, "", "", "DB5"⟩).1
        ≠ (GetDatabaseFactory ⟨[], 0⟩ ⟨"", false, "", "", "DB1"⟩).1 :=
  ⟨by decide,
   C6_singleton_amended.2 ⟨[], 0⟩ ⟨"", false, "", "", "DB1"⟩ ⟨"", false, "", "", "DB5"⟩
     (by decide) (by decide) (by decide)⟩

/-! ## Claim C7 -/

/-- C7: a hot swap that fails at any step (copying the file, opening
the database, or reading its version) returns an error and leaves the
wrapper fields (database handle, path, version) exactly as they were;
and checkAndUpdate never propagates an error: its effect on the state
is either nothing or exactly the effect of one performHotSwap call. -/
theorem C7_hot_swap_atomic :
    (∀ (env : SwapEnv) (st : FactoryState) (p e : String),
      (performHotSwap env st p).1 = .error e →
      (performHotSwap env st p).2.wrapper = st.wrapper)
    ∧ (∀ (env : UpdateEnv) (st : FactoryState),
        checkAndUpdate env st = st
        ∨ ∃ p, checkAndUpdate env st = (performHotSwap env.swap st p).2) := by
  constructor
  · intro env st p e herr
    unfold performHotSwap createLocalDatabaseCopy at herr ⊢
    rcases hcp : env.copyResult p with _ | tmpFile
    · simp [hcp]
    · rcases hop : env.openResult tmpFile with _ | newDB
      · simp [hcp, hop]
      · rcases hv : env.versionResult tmpFile with _ | newVersion
        · simp [hcp, hop, hv]
        · rw [hcp] at herr
          simp [hop, hv] at herr
  · intro env st
    unfold checkAndUpdate
    rcases st.wrapper.version with _ | v
    · left; rfl
    · by_cases hage : env.ageDays v < 30
      · left; simp [hage]
      · rcases hup : env.updateResult with _ | u
        · left; simp [hage, hup]
        · rcases hfl : env.findLatestSecond with _ | nl
          · left; simp [hage, hup, hfl]
          · by_cases hnl : nl = "" ∨ nl = (match env.findLatestFirst with
              | .error _ => "" | .ok l => l)
            · left; simp [hage, hup, hfl, hnl]
            · right
              exact ⟨nl, by simp [hage, hup, hfl, hnl]⟩

/-- C7 witness: the atomicity part applied to an environment whose open
step fails: the wrapper of the resulting state is unchanged. -/
theorem C7_witness :
    (performHotSwap
        ⟨fun _ => .ok "/tmp/copy1", fun _ => .error "corrupt header", fun _ => .ok 5⟩
        ⟨⟨some 7, "/db/old", some 3⟩, "/tmp/old", "/share/old"⟩
        "/share/new").2.wrapper
      = (⟨⟨some 7, "/db/old", some 3⟩, "/tmp/old", "/share/old"⟩ : FactoryState).wrapper :=
  C7_hot_swap_atomic.1
    ⟨fun _ => .ok "/tmp/copy1", fun _ => .error "corrupt header", fun _ => .ok 5⟩
    ⟨⟨some 7, "/db/old", some 3⟩, "/tmp/old", "/share/old"⟩
    "/share/new" "failed to open new database: corrupt header" (by decide)

/-! ## Claim C8 -/

theorem readBlocks_go_parseable :
    ∀ (lines : List String), ∀ b ∈ readBlocksFromFile.go lines, (parseCIDR b).isSome := by
  intro lines
  induction lines with
  | nil => intro b hb; cases hb
  | cons rawLine rest ih =>
      intro b hb
      unfold readBlocksFromFile.go at hb
      by_cases h1 : goTrimSpace rawLine = "" ∨ goHasPfx "#".toList (goTrimSpace rawLine).toList = true
      · rw [if_pos (by simpa using h1)] at hb
        exact ih b hb
      · rw [if_neg (by simpa using h1)] at hb
        by_cases h2 : (parseCIDR (goTrimSpace rawLine)).isNone
        · rw [if_pos h2] at hb
          exact ih b hb
        · rw [if_neg h2] at hb
          rcases hb with _ | hb
          · simpa [Option.isNone_iff_eq_none, ← Option.ne_none_iff_isSome] using h2
          · exact ih b (by assumption)

theorem readBlocksFromFile_parseable (lines : List String) :
    ∀ b ∈ readBlocksFromFile lines, (parseCIDR b).isSome :=
  readBlocks_go_parseable lines

theorem addBlocks_tree :
    ∀ (blocks : List String) (h : IpLookupHelperM),
      (∀ b ∈ blocks, (parseCIDR b).isSome) →
      (addBlocks h blocks).tree = (blocks.filterMap parseCIDR).foldl treeInsert h.tree := by
  intro blocks
  induction blocks with
  | nil => intro h _; rfl
  | cons b bs ih =>
      intro h hps
      obtain ⟨net, hnet⟩ := Option.isSome_iff_exists.mp (hps b (by simp))
      unfold addBlocks AddCIDR
      rw [hnet]
      simp only [List.filterMap_cons, hnet, List.foldl_cons]
      exact ih ⟨treeInsert h.tree net, h.count + 1⟩ (fun x hx => hps x (by simp [hx]))

theorem insertBlocksFromDirectory_tree :
    ∀ (files : List (List String)) (h : IpLookupHelperM),
      (insertBlocksFromDirectory h files).tree
        = (files.flatMap fun f => (readBlocksFromFile f).filterMap parseCIDR).foldl
            treeInsert h.tree := by
  intro files
  induction files with
  | nil => intro h; rfl
  | cons f rest ih =>
      intro h
      unfold insertBlocksFromDirectory
      rw [ih, List.flatMap_cons, List.foldl_append,
        addBlocks_tree (readBlocksFromFile f) h (readBlocksFromFile_parseable f)]

theorem NewIpLookupFileMonitor_ok (files : List (List String)) :
    NewIpLookupFileMonitor [] files
      = .ok (insertBlocksFromDirectory NewEmptyIpLookupHelper files) := rfl

/-- C8 counterexample: the range set built from the example file (the
two valid lines 192.168.0.0/16 and 10.0.0.0/8) also reports found for
the IPv6 address c0a8::1, whose leading 16 bits coincide with
192.168.0.0, although neither CIDR of the file contains that address —
so the set does not match EXACTLY the IPs covered by the valid lines. -/
theorem C8_counterexample :
    parseIP "c0a8::1" = some [192, 168, 0, 0, 0, 0, 0, 0, 0, 0, 0, 0, 0, 0, 0, 1]
    ∧ Except.map (fun h => IsContained h.tree [192, 168, 0, 0, 0, 0, 0, 0, 0, 0, 0, 0, 0, 0, 0, 1])
        (NewIpLookupFileMonitor []
          [["192.168.0.0/16", "not-a-cidr", "300.1.1.1/8", "10.0.0.0/8"]])
      = .ok (true, 16)
    ∧ netContains ⟨[192, 168, 0, 0], [255, 255, 0, 0]⟩
        [192, 168, 0, 0, 0, 0, 0, 0, 0, 0, 0, 0, 0, 0, 0, 1] = false
    ∧ netContains ⟨[10, 0, 0, 0], [255, 0, 0, 0]⟩
        [192, 168, 0, 0, 0, 0, 0, 0, 0, 0, 0, 0, 0, 0, 0, 1] = false := by
  decide

/-- C8 (amended): blank lines, comment lines and malformed lines are
skipped without failing construction (the example file yields exactly
its two valid lines), directory construction always succeeds, and the
resulting range set matches exactly the IPs covered by the valid CIDR
lines among addresses of the same family (an IPv6 address whose
leading bits coincide with a stored IPv4 prefix is spuriously
reported found). -/
theorem C8_malformed_tolerance_amended :
    readBlocksFromFile ["192.168.0.0/16", "not-a-cidr", "300.1.1.1/8", "10.0.0.0/8"]
      = ["192.168.0.0/16", "10.0.0.0/8"]
    ∧ (∀ files : List (List String), ∃ h, NewIpLookupFileMonitor [] files = .ok h)
    ∧ (∀ (files : List (List String)) (h : IpLookupHelperM),
        NewIpLookupFileMonitor [] files = .ok h →
        ∀ (ip ip4 : GoIP), to4 ip = some ip4 →
        (∀ net ∈ files.flatMap (fun f => (readBlocksFromFile f).filterMap parseCIDR),
          wfV4 net = true) →
        (IsContained h.tree ip).1
          = (files.flatMap fun f => (readBlocksFromFile f).filterMap parseCIDR).any
              (fun net => netContains net ip)) := by
  refine ⟨by decide, ?_, ?_⟩
  · intro files
    exact ⟨_, NewIpLookupFileMonitor_ok files⟩
  · intro files h hok ip ip4 h4 hwf
    have hh : h = insertBlocksFromDirectory NewEmptyIpLookupHelper files := by
      rw [NewIpLookupFileMonitor_ok] at hok
      injection hok with hok
      exact hok.symm
    have htree : h.tree
        = buildTree (files.flatMap fun f => (readBlocksFromFile f).filterMap parseCIDR) := by
      rw [hh, insertBlocksFromDirectory_tree]
      rfl
    show (treeContains h.tree ip).1 = _
    rw [htree]
    exact (treeContains_v4_spec
      (files.flatMap fun f => (readBlocksFromFile f).filterMap parseCIDR)
      ip ip4 hwf h4).1

/-- C8 witness: the amended theorem applied to the example directory
and the address 192.168.77.1, hypotheses discharged by evaluation. -/
theorem C8_witness :
    (IsContained
        (insertBlocksFromDirectory NewEmptyIpLookupHelper
          [["192.168.0.0/16", "not-a-cidr", "300.1.1.1/8", "10.0.0.0/8"]]).tree
        [0, 0, 0, 0, 0, 0, 0, 0, 0, 0, 255, 255, 192, 168, 77, 1]).1
      = ([["192.168.0.0/16", "not-a-cidr", "300.1.1.1/8", "10.0.0.0/8"]].flatMap
          (fun f => (readBlocksFromFile f).filterMap parseCIDR)).any
          (fun net => netContains net
            [0, 0, 0, 0, 0, 0, 0, 0, 0, 0, 255, 255, 192, 168, 77, 1]) :=
  C8_malformed_tolerance_amended.2.2
    [["192.168.0.0/16", "not-a-cidr", "300.1.1.1/8", "10.0.0.0/8"]]
    (insertBlocksFromDirectory NewEmptyIpLookupHelper
      [["192.168.0.0/16", "not-a-cidr", "300.1.1.1/8", "10.0.0.0/8"]])
    (by rfl)
    [0, 0, 0, 0, 0, 0, 0, 0, 0, 0, 255, 255, 192, 168, 77, 1]
    [192, 168, 77, 1] (by decide) (by decide)

/-! ## Claim C10 -/

theorem mem_pieces_fold (pieces : List String) :
    ∀ (acc : Finset String) (x : String),
      (x ∈ pieces.foldl
        (fun u piece =>
          let ip := cleanIPAddress piece
          if ip = "" then u else insert ip u) acc)
      ↔ x ∈ acc ∨ ∃ piece ∈ pieces, cleanIPAddress piece = x ∧ x ≠ "" := by
  induction pieces with
  | nil => intro acc x; simp
  | cons p ps ih =>
      intro acc x
      rw [List.foldl_cons]
      by_cases hcp : cleanIPAddress p = ""
      · simp only [hcp, if_pos rfl, ih]
        constructor
        · rintro (hx | ⟨piece, hmem, hcl, hne⟩)
          · exact Or.inl hx
          · exact Or.inr ⟨piece, by simp [hmem], hcl, hne⟩
        · rintro (hx | ⟨piece, hmem, hcl, hne⟩)
          · exact Or.inl hx
          · rcases List.mem_cons.mp hmem with rfl | hmem2
            · rw [hcp] at hcl
              exact absurd hcl.symm hne
            · exact Or.inr ⟨piece, hmem2, hcl, hne⟩
      · rw [if_neg hcp, ih]
        constructor
        · rintro (hx | ⟨piece, hmem, hcl, hne⟩)
          · rcases Finset.mem_insert.mp hx with rfl | hx2
            · exact Or.inr ⟨p, by simp, rfl, hcp⟩
            · exact Or.inl hx2
          · exact Or.inr ⟨piece, by simp [hmem], hcl, hne⟩
        · rintro (hx | ⟨piece, hmem, hcl, hne⟩)
          · exact Or.inl (Finset.mem_insert_of_mem hx)
          · rcases List.mem_cons.mp hmem with rfl | hmem2
            · exact Or.inl (by rw [← hcl]; exact Finset.mem_insert_self _ _)
            · exact Or.inr ⟨piece, hmem2, hcl, hne⟩

theorem cleanIPAddress_empty : cleanIPAddress "" = "" := rfl

theorem mem_headers_fold (hget : String → String) :
    ∀ (ipHeaders : List String) (acc : Finset String) (x : String),
      (x ∈ ipHeaders.foldl
        (fun uniqIPs headerName =>
          let headerValue := hget headerName
          if headerValue ≠ "" then
            (goSplitComma headerValue).foldl
              (fun u piece =>
                let ip := cleanIPAddress piece
                if ip = "" then u else insert ip u) uniqIPs
          else uniqIPs) acc)
      ↔ x ∈ acc ∨ ∃ h ∈ ipHeaders, ∃ piece ∈ goSplitComma (hget h),
          cleanIPAddress piece = x ∧ x ≠ "" := by
  intro ipHeaders
  induction ipHeaders with
  | nil => intro acc x; simp
  | cons hd tl ih =>
      intro acc x
      rw [List.foldl_cons]
      by_cases hv : hget hd = ""
      · simp only [hv, ne_eq, not_true_eq_false, if_neg, ih]
        constructor
        · rintro (hx | ⟨h, hmem, hrest⟩)
          · exact Or.inl hx
          · exact Or.inr ⟨h, by simp [hmem], hrest⟩
        · rintro (hx | ⟨h, hmem, piece, hpm, hcl, hne⟩)
          · exact Or.inl hx
          · rcases List.mem_cons.mp hmem with rfl | hmem2
            · rw [hv] at hpm
              have : piece = "" := by simpa [goSplitComma, splitCommaAux] using hpm
              rw [this, cleanIPAddress_empty] at hcl
              exact absurd hcl.symm hne
            · exact Or.inr ⟨h, hmem2, piece, hpm, hcl, hne⟩
      · simp only [hv, ne_eq, not_false_eq_true, if_pos, ih, mem_pieces_fold]
        constructor
        · rintro ((hx | ⟨piece, hpm, hcl, hne⟩) | ⟨h, hmem, hrest⟩)
          · exact Or.inl hx
          · exact Or.inr ⟨hd, by simp, piece, hpm, hcl, hne⟩
          · exact Or.inr ⟨h, by simp [hmem], hrest⟩
        · rintro (hx | ⟨h, hmem, piece, hpm, hcl, hne⟩)
          · exact Or.inl (Or.inl hx)
          · rcases List.mem_cons.mp hmem with rfl | hmem2
            · exact Or.inl (Or.inr ⟨piece, hpm, hcl, hne⟩)
            · exact Or.inr ⟨h, hmem2, piece, hpm, hcl, hne⟩

/-- C10: GetRemoteIPs returns exactly the set of distinct non-empty
cleaned candidates: every header value is split on commas, each piece
is trimmed and, when it parses as host colon port, reduced to the
host; empty pieces are dropped and duplicates across headers collapse
(the result is a set; the Go map iteration order is unspecified). The
concrete conjuncts show the trimming, the port stripping for IPv4 and
bracketed IPv6, a bare IPv6 address kept whole, and cross-header
deduplication. -/
theorem C10_get_remote_ips :
    (∀ (ipHeaders : List String) (hget : String → String) (x : String),
      x ∈ GetRemoteIPs ipHeaders hget
        ↔ x ≠ "" ∧ ∃ h ∈ ipHeaders, ∃ piece ∈ goSplitComma (hget h),
            cleanIPAddress piece = x)
    ∧ cleanIPAddress " 1.2.3.4:8080 " = "1.2.3.4"
    ∧ cleanIPAddress "2001:db8::1" = "2001:db8::1"
    ∧ cleanIPAddress "[2001:db8::1]:443" = "2001:db8::1"
    ∧ cleanIPAddress "  10.0.0.1  " = "10.0.0.1"
    ∧ GetRemoteIPs ["x-forwarded-for", "x-real-ip"]
        (fun h => if h = "x-forwarded-for" then "1.2.3.4, 5.6.7.8:443, " else "1.2.3.4")
      = {"1.2.3.4", "5.6.7.8"} := by
  refine ⟨?_, by decide, by decide, by decide, by decide, by decide⟩
  intro ipHeaders hget x
  unfold GetRemoteIPs
  rw [mem_headers_fold]
  constructor
  · rintro (hx | ⟨h, hmem, piece, hpm, hcl, hne⟩)
    · cases hx
    · exact ⟨hne, h, hmem, piece, hpm, hcl⟩
  · rintro ⟨hne, h, hmem, piece, hpm, hcl⟩
    exact Or.inr ⟨h, hmem, piece, hpm, hcl, hne⟩

end Geoblock
